import Mathlib

/-!
Verification of the invoice-extraction core of
`Gokul-bit165/Printed-invoice-extractor-webapp` (`backend/invoice_ocr_api.py`).

The parsing pipeline (`parse_float`, `parse_line_items`, `parse_invoice_data`,
`generate_csv_string`) is shallowly embedded below.  Python `float` values are
modelled as exact rationals (`ℚ`); all texts in scope are ASCII, so character
classes (`\s`, `\d`, `\w`) are modelled by their ASCII meaning.  Python regular
expressions are modelled by a small backtracking matcher (`Regex.mtch`) that
reproduces `re`'s leftmost search, left-first alternation and greedy
quantifiers; every search in the source is performed with `re.IGNORECASE`, so
matching is case-insensitive throughout (`re.MULTILINE` is irrelevant: no
pattern uses anchors).
-/

attribute [local semireducible] Rat.add Rat.sub Rat.mul Rat.inv Rat.ofScientific

namespace InvoiceOCR

/-- ASCII lower-casing, as applied by case-insensitive matching. -/
def lowerChar (c : Char) : Char :=
  if 65 ≤ c.toNat ∧ c.toNat ≤ 90 then Char.ofNat (c.toNat + 32) else c

/-- ASCII upper-casing, modelling Python `str.upper` on ASCII text. -/
def upperChar (c : Char) : Char :=
  if 97 ≤ c.toNat ∧ c.toNat ≤ 122 then Char.ofNat (c.toNat - 32) else c

/-- Case-insensitive character comparison. -/
def cieq (a b : Char) : Bool := lowerChar a == lowerChar b

/-- Case-insensitive test that `w` begins the text `s`. -/
def ciStarts : List Char → List Char → Bool
  | [], _ => true
  | _ :: _, [] => false
  | c :: w, d :: s => cieq c d && ciStarts w s

/-- Python `\s` on ASCII text (also Python's `str.isspace` / `str.strip` set). -/
def isSpaceB (c : Char) : Bool :=
  c == ' ' || c == '\t' || c == '\n' || c == '\r' || c == '\x0b' || c == '\x0c'

/-- Python `\d` on ASCII text. -/
def isDigitB (c : Char) : Bool := 48 ≤ c.toNat && c.toNat ≤ 57

/-- Python `\w` on ASCII text. -/
def isWordB (c : Char) : Bool :=
  isDigitB c || (65 ≤ c.toNat && c.toNat ≤ 90) || (97 ≤ c.toNat && c.toNat ≤ 122) || c == '_'

/-- The class `[A-Z]` under `re.IGNORECASE` (so both cases). -/
def isAlphaB (c : Char) : Bool :=
  (65 ≤ c.toNat && c.toNat ≤ 90) || (97 ≤ c.toNat && c.toNat ≤ 122)

/-- The class `[\d,\.]` used for monetary capture groups. -/
def isNumTokB (c : Char) : Bool := isDigitB c || c == ',' || c == '.'

/-- The class `[:#-]` of the invoice-number/date patterns. -/
def isSepB (c : Char) : Bool := c == ':' || c == '#' || c == '-'

/-- The class `[:#]` of the gst-number pattern. -/
def isColonHashB (c : Char) : Bool := c == ':' || c == '#'

/-- The date-separator class matching `'-'` or `'/'`. -/
def isDashSlashB (c : Char) : Bool := c == '-' || c == '/'

/-- Capture-group assignment produced by a match: group number paired with the
captured text. -/
abbrev Caps := List (Nat × List Char)

/-- Regular-expression abstract syntax covering the constructs used by
`INVOICE_CONFIG` and `KNOWN_VENDOR_TEMPLATE`: literal runs, character classes,
concatenation, alternation, greedy star and numbered capture groups.
`(?:..)?`, `+` and bounded repetition are encoded with these. -/
inductive Regex where
  | eps
  | lit (w : List Char)
  | cls (p : Char → Bool)
  | seq (a b : Regex)
  | alt (a b : Regex)
  | star (a : Regex)
  | group (n : Nat) (a : Regex)

/-- Structural size of a pattern, used to bound matcher recursion depth. -/
def Regex.size : Regex → Nat
  | .eps => 1
  | .lit _ => 1
  | .cls _ => 1
  | .seq a b => a.size + b.size + 1
  | .alt a b => a.size + b.size + 1
  | .star a => a.size + 1
  | .group _ a => a.size + 1

/-- Backtracking matcher at a fixed position: all ways the pattern can match a
front segment of `s`, each as (remaining suffix, captures), in Python's
backtracking preference order (alternation left-first, quantifiers greedy).
Star iterations must consume at least one character, mirroring the `re`
engine's cut of empty-width repetitions.  `fuel` only bounds recursion depth
(it is decremented once per step); every step either moves to a structurally
smaller pattern or, on a star iteration, consumes a character, so depth is at
most `(size + 1) * (length + 1)` and the fuel supplied by `runFuel` below is
never exhausted. -/
def Regex.mtch (fuel : Nat) (r : Regex) (s : List Char) : List (List Char × Caps) :=
  match fuel with
  | 0 => []
  | f + 1 =>
    match r with
    | .eps => [(s, [])]
    | .lit w => if ciStarts w s then [(s.drop w.length, [])] else []
    | .cls p =>
      match s with
      | [] => []
      | c :: t => if p c then [(t, [])] else []
    | .seq a b =>
      (Regex.mtch f a s).flatMap fun r1 =>
        (Regex.mtch f b r1.1).map fun r2 => (r2.1, r1.2 ++ r2.2)
    | .alt a b => Regex.mtch f a s ++ Regex.mtch f b s
    | .star a =>
      (((Regex.mtch f a s).filter fun r1 => r1.1.length < s.length).flatMap fun r1 =>
        (Regex.mtch f (.star a) r1.1).map fun r2 => (r2.1, r1.2 ++ r2.2)) ++ [(s, [])]
    | .group n a =>
      (Regex.mtch f a s).map fun r1 => (r1.1, (n, s.take (s.length - r1.1.length)) :: r1.2)

/-- Ample matcher fuel for pattern `r` on text `s` (see `Regex.mtch`). -/
def runFuel (r : Regex) (s : List Char) : Nat := (r.size + 1) * (s.length + 1) + 1

/-- Python `re.search`: scan start positions left to right, and at the first
position where the pattern matches return the first match in backtracking
order; `none` when no position matches. -/
def searchL (r : Regex) : List Char → Option Caps
  | [] =>
    match Regex.mtch (runFuel r []) r [] with
    | rc :: _ => some rc.2
    | [] => none
  | c :: t =>
    match Regex.mtch (runFuel r (c :: t)) r (c :: t) with
    | rc :: _ => some rc.2
    | [] => searchL r t

/-- Lookup of a capture group in a match result (`m.group n`). -/
def capLookup (n : Nat) : Caps → Option (List Char)
  | [] => none
  | (m, w) :: g => if m = n then some w else capLookup n g

/-- Literal pattern from a string. -/
def rstr (s : String) : Regex := .lit s.data

/-- Literal single-character pattern. -/
def rchar (c : Char) : Regex := .lit [c]

/-- Greedy `+`. -/
def rplus (r : Regex) : Regex := .seq r (.star r)

/-- Greedy `?`. -/
def ropt (r : Regex) : Regex := .alt r .eps

/-- Concatenation of a pattern list. -/
def rcat (l : List Regex) : Regex := l.foldr .seq .eps

/-- Left-first alternation of a pattern list. -/
def ralts : List Regex → Regex
  | [] => .cls fun _ => false
  | [r] => r
  | r :: rs => .alt r (ralts rs)

/-- Greedy `\s*`. -/
def rws : Regex := .star (.cls isSpaceB)

/-- Single `\d`. -/
def rdigit : Regex := .cls isDigitB

/-- `INVOICE_CONFIG["invoice_number"]`:
`(?:Invoice No\.|Invoice|Bill)\s*[:#-]\s*(\w+)`. -/
def invoiceNumberPattern : Regex :=
  rcat [ralts [rstr "Invoice No.", rstr "Invoice", rstr "Bill"],
        rws, .cls isSepB, rws, .group 1 (rplus (.cls isWordB))]

/-- `INVOICE_CONFIG["date"]`: the alternatives `Invoice Date`, `DATED`, `Date`,
then `\s*[:#-]\s*`, then a group capturing two digits, a dash-or-slash
separator, two digits, another separator, and two to four digits.
The bound `\d{2,4}` is encoded as two digits followed by up to two more,
longest first. -/
def datePattern : Regex :=
  rcat [ralts [rstr "Invoice Date", rstr "DATED", rstr "Date"],
        rws, .cls isSepB, rws,
        .group 1 (rcat [rdigit, rdigit, .cls isDashSlashB, rdigit, rdigit, .cls isDashSlashB,
                        rdigit, rdigit, ropt (.seq rdigit (ropt rdigit))])]

/-- `INVOICE_CONFIG["total_amount"]`:
`(?:PAYABLE AMOUNT|GRAND TOTAL|TOTAL|AMOUNT DUE|BALANCE)\s*(?:[A-Z]{3}|\$|€|£|Rs\.\s*)?\s*([\d,\.]+)`. -/
def totalAmountPattern : Regex :=
  rcat [ralts [rstr "PAYABLE AMOUNT", rstr "GRAND TOTAL", rstr "TOTAL",
               rstr "AMOUNT DUE", rstr "BALANCE"],
        rws,
        ropt (ralts [rcat [.cls isAlphaB, .cls isAlphaB, .cls isAlphaB],
                     rchar '$', rchar '€', rchar '£', rcat [rstr "Rs.", rws]]),
        rws, .group 1 (rplus (.cls isNumTokB))]

/-- `INVOICE_CONFIG["tax_amount"]`:
`(?:TAX|GST|VAT|SGST|CGST)\s*RATE\s*@\s*\d+%?\s*Rs\.\s*([\d,\.]+)`. -/
def taxAmountPattern : Regex :=
  rcat [ralts [rstr "TAX", rstr "GST", rstr "VAT", rstr "SGST", rstr "CGST"],
        rws, rstr "RATE", rws, rchar '@', rws, rplus rdigit, ropt (rchar '%'),
        rws, rstr "Rs.", rws, .group 1 (rplus (.cls isNumTokB))]

/-- `INVOICE_CONFIG["vendor_name"]`: `(S\.K\.P\.S DIGITAL)`. -/
def vendorNamePattern : Regex := .group 1 (rstr "S.K.P.S DIGITAL")

/-- `INVOICE_CONFIG["gst_number"]`: `(?:GSTIN|VAT ID|Tax ID)\s*[:#]\s*(\w+)`. -/
def gstNumberPattern : Regex :=
  rcat [ralts [rstr "GSTIN", rstr "VAT ID", rstr "Tax ID"],
        rws, .cls isColonHashB, rws, .group 1 (rplus (.cls isWordB))]

/-- `KNOWN_VENDOR_TEMPLATE` override for `invoice_number`: `ACME-INV-(\d+)`. -/
def acmeInvoicePattern : Regex :=
  rcat [rstr "ACME-INV-", .group 1 (rplus rdigit)]

/-- `KNOWN_VENDOR_TEMPLATE` override for `date`:
`Billing Date:\s*(\d{4}-\d{2}-\d{2})`. -/
def acmeDatePattern : Regex :=
  rcat [rstr "Billing Date:", rws,
        .group 1 (rcat [rdigit, rdigit, rdigit, rdigit, rchar '-',
                        rdigit, rdigit, rchar '-', rdigit, rdigit])]

/-- `INVOICE_CONFIG["line_item_pattern"]`:
`ITEM NAME \d\s+Rs\.\s*([\d,\.]+)\s+Rs\.\s*([\d,\.]+)`. -/
def lineItemPattern : Regex :=
  rcat [rstr "ITEM NAME ", rdigit, rplus (.cls isSpaceB), rstr "Rs.", rws,
        .group 1 (rplus (.cls isNumTokB)), rplus (.cls isSpaceB), rstr "Rs.", rws,
        .group 2 (rplus (.cls isNumTokB))]

/-- Section-header probe in `parse_line_items`: `ITEM NAME \d`. -/
def headerSignaturePattern : Regex := rcat [rstr "ITEM NAME ", rdigit]

/-- Summary-line probe in `parse_line_items`:
`(SUBTOTAL|TAX|TOTAL|BALANCE|GST|PAYABLE)`. -/
def summaryPattern : Regex :=
  .group 1 (ralts [rstr "SUBTOTAL", rstr "TAX", rstr "TOTAL",
                   rstr "BALANCE", rstr "GST", rstr "PAYABLE"])

/-- Python `str.strip` (whitespace from both ends). -/
def pyStrip (s : List Char) : List Char :=
  ((s.dropWhile isSpaceB).reverse.dropWhile isSpaceB).reverse

/-- Numeric value of a digit run. -/
def digitsVal (s : List Char) : ℕ := s.foldl (fun a c => a * 10 + (c.toNat - 48)) 0

/-- Test that every character is an ASCII digit. -/
def allDigits (s : List Char) : Bool := s.all isDigitB

/-- Split at the first `'.'`, if any. -/
def splitDot : List Char → List Char × Option (List Char)
  | [] => ([], none)
  | c :: cs =>
    if c == '.' then ([], some cs)
    else
      let r := splitDot cs
      (c :: r.1, r.2)

/-- Split at the first `'e'`/`'E'`, if any. -/
def splitExpAt : List Char → List Char × Option (List Char)
  | [] => ([], none)
  | c :: cs =>
    if c == 'e' || c == 'E' then ([], some cs)
    else
      let r := splitExpAt cs
      (c :: r.1, r.2)

/-- Strip one leading sign, returning it as `±1`. -/
def stripSign : List Char → ℤ × List Char
  | [] => (1, [])
  | c :: cs => if c == '-' then (-1, cs) else if c == '+' then (1, cs) else (1, c :: cs)

/-- Mantissa of a Python float literal: digits with at most one dot and at
least one digit overall. -/
def parseMant (m : List Char) : Option ℚ :=
  match splitDot m with
  | (ip, none) => if ip ≠ [] ∧ allDigits ip then some (digitsVal ip) else none
  | (ip, some fp) =>
    if (ip ≠ [] ∨ fp ≠ []) ∧ allDigits ip ∧ allDigits fp then
      some ((digitsVal ip : ℚ) + (digitsVal fp : ℚ) / 10 ^ fp.length)
    else none

/-- Exponent of a Python float literal: optional sign then digits. -/
def parseExpPart (s : List Char) : Option ℤ :=
  let p := stripSign s
  if p.2 ≠ [] ∧ allDigits p.2 then some (p.1 * digitsVal p.2) else none

/-- Python `float(...)` on a decimal literal (exact-rational model of the
double it returns; `inf`/`nan`/underscore spellings are not reachable from
this program's inputs, whose cleaned values contain only digits, dots and
signs). -/
def pyFloat (s : List Char) : Option ℚ :=
  match splitExpAt (stripSign s).2 with
  | (m, none) => (parseMant m).map fun v => ((stripSign s).1 : ℚ) * v
  | (m, some ex) =>
    match parseMant m, parseExpPart ex with
    | some v, some e => some (((stripSign s).1 : ℚ) * v * 10 ^ e)
    | _, _ => none

/-- Characters removed by `parse_float`'s cleaning step
(`re.sub(r'[$,€£()]', '', value)`; the subsequent `.replace(',','')` is
subsumed since `,` is already in the class). -/
def isCurrencyB (c : Char) : Bool :=
  c == '$' || c == ',' || c == '€' || c == '£' || c == '(' || c == ')'

/-- The source's `parse_float`: `None` on the empty string (falsy input),
otherwise strip currency characters and thousands separators, trim, and
convert with `float`, with `None` on conversion failure. -/
def parse_float (v : List Char) : Option ℚ :=
  if v.isEmpty then none
  else pyFloat (pyStrip (v.filter fun c => !(isCurrencyB c)))

/-- Floor of a rational (`num.fdiv den` is floor division since `den > 0`). -/
def ratFloor (q : ℚ) : ℤ := Int.fdiv q.num q.den

/-- Python `round` on a value modelled as a rational: round half to even. -/
def roundHE (q : ℚ) : ℤ :=
  if q - (ratFloor q : ℚ) < 1 / 2 then ratFloor q
  else if (1 / 2 : ℚ) < q - (ratFloor q : ℚ) then ratFloor q + 1
  else if ratFloor q % 2 = 0 then ratFloor q else ratFloor q + 1

/-- Split a character list at every separator selected by `p`
(Python `str.split(sep)` when `p` tests for `sep`: no collapsing, empty
pieces kept, `[""]` on empty input). -/
def splitWhen (p : Char → Bool) : List Char → List (List Char)
  | [] => [[]]
  | c :: cs =>
    let r := splitWhen p cs
    if p c then [] :: r
    else
      match r with
      | h :: t => (c :: h) :: t
      | [] => [[c]]

/-- Python `raw_text.split('\n')`. -/
def splitLines (s : List Char) : List (List Char) := splitWhen (fun c => c == '\n') s

/-- Python `line.split()` (no argument): whitespace-separated tokens, runs
collapsed, no empty tokens. -/
def pySplitWs (s : List Char) : List (List Char) :=
  (splitWhen isSpaceB s).filter fun w => !w.isEmpty

/-- The `LineItem` model (`quantity` is always assigned in the source, so it
is total here; the monetary fields keep their `Optional` type). -/
structure LineItem where
  quantity : ℚ
  description : String
  unit_price : Option ℚ
  line_total : Option ℚ
deriving DecidableEq, Repr

/-- The `ParsedInvoice` model. -/
structure ParsedInvoice where
  invoice_id : String
  vendor_name : Option String
  invoice_number : Option String
  date : Option String
  total_amount : Option ℚ
  tax_amount : Option ℚ
  gst_number : Option String
  line_items : List LineItem
  raw_text : String
deriving DecidableEq, Repr

/-- Body of `parse_line_items`' per-line loop: skip summary lines; on a
pattern match build the item, skipping the line when `line.split()[2]` or a
capture group is unavailable (the `except IndexError: continue` /
`except Exception` paths). -/
def lineItemFromLine (pat : Regex) (line : List Char) : Option LineItem :=
  if (searchL summaryPattern line).isSome then none
  else
    match searchL pat line with
    | none => none
    | some caps =>
      match (pySplitWs line).get? 2 with
      | none => none
      | some tok =>
        match capLookup 1 caps, capLookup 2 caps with
        | some g1, some g2 =>
          if ("ITEM NAME ".data ++ tok).isEmpty then none
          else
            some
              { quantity :=
                  match parse_float (pyStrip g1), parse_float (pyStrip g2) with
                  | some u, some l =>
                    if u ≠ 0 ∧ l ≠ 0 ∧ 0 < u then ((roundHE (l / u) : ℤ) : ℚ) else 1
                  | _, _ => 1
                description := ⟨"ITEM NAME ".data ++ tok⟩
                unit_price := parse_float (pyStrip g1)
                line_total := parse_float (pyStrip g2) }
        | _, _ => none

/-- The source's `parse_line_items`: find the first line matching
`ITEM NAME \d`; from it on, collect one item per matching non-summary line;
empty when no header line exists. -/
def parse_line_items (raw : String) (pat : Regex) : List LineItem :=
  match (splitLines raw.data).findIdx? (fun l => (searchL headerSignaturePattern l).isSome) with
  | none => []
  | some i => ((splitLines raw.data).drop i).filterMap (lineItemFromLine pat)

/-- Test that `w` begins the text `s` (plain, case-sensitive). -/
def listStarts : List Char → List Char → Bool
  | [], _ => true
  | _ :: _, [] => false
  | c :: w, d :: s => c == d && listStarts w s

/-- Substring containment (Python's `in` on strings). -/
def listHas (w : List Char) : List Char → Bool
  | [] => listStarts w []
  | c :: t => listStarts w (c :: t) || listHas w t

/-- Vendor detection in `parse_invoice_data`: upper-case the first 5 lines
joined with newlines and test for containment of the known vendor's
upper-cased signature. -/
def isKnownVendor (raw : String) : Bool :=
  let lines := splitLines raw.data
  let firstFive := (List.intercalate ['\n'] (lines.take 5)).map upperChar
  listHas ("Acme Corp".data.map upperChar) firstFive

/-- Effective invoice-number pattern after the vendor overlay. -/
def effInvoicePattern (raw : String) : Regex :=
  if isKnownVendor raw then acmeInvoicePattern else invoiceNumberPattern

/-- Effective date pattern after the vendor overlay. -/
def effDatePattern (raw : String) : Regex :=
  if isKnownVendor raw then acmeDatePattern else datePattern

/-- Search plus `m.group(1)` for a field pattern. -/
def fieldMatch (r : Regex) (raw : List Char) : Option (List Char) :=
  (searchL r raw).bind (capLookup 1)

/-- A plain-string field: `match.group(1).strip()`, absent when unmatched. -/
def extractStr (r : Regex) (raw : List Char) : Option String :=
  (fieldMatch r raw).map fun w => (⟨pyStrip w⟩ : String)

/-- A monetary field: `parse_float(match.group(1).strip())`, absent when
unmatched or when the numeric conversion fails. -/
def extractMoney (r : Regex) (raw : List Char) : Option ℚ :=
  (fieldMatch r raw).bind fun w => parse_float (pyStrip w)

/-- The source's `parse_invoice_data`.  The `uuid.uuid4()` identifier is the
only nondeterministic input and is passed in explicitly. -/
def parse_invoice_data (invoice_id : String) (raw : String) : ParsedInvoice :=
  { invoice_id := invoice_id
    vendor_name := extractStr vendorNamePattern raw.data
    invoice_number := extractStr (effInvoicePattern raw) raw.data
    date := extractStr (effDatePattern raw) raw.data
    total_amount := extractMoney totalAmountPattern raw.data
    tax_amount := extractMoney taxAmountPattern raw.data
    gst_number := extractStr gstNumberPattern raw.data
    line_items := parse_line_items raw lineItemPattern
    raw_text := raw }

/-- Patterns whose every consumable character satisfies `P`: built from
classes included in `P` (no literals or groups; enough for the capture-group
bodies of this configuration, which are all `[\d,\.]+`). -/
inductive OnlyCls (P : Char → Bool) : Regex → Prop
  | eps : OnlyCls P .eps
  | cls (p : Char → Bool) (h : ∀ c, p c = true → P c = true) : OnlyCls P (.cls p)
  | seq {a b : Regex} (ha : OnlyCls P a) (hb : OnlyCls P b) : OnlyCls P (.seq a b)
  | alt {a b : Regex} (ha : OnlyCls P a) (hb : OnlyCls P b) : OnlyCls P (.alt a b)
  | star {a : Regex} (ha : OnlyCls P a) : OnlyCls P (.star a)

/-- Patterns all of whose capture groups have `OnlyCls P` bodies, so every
captured substring consists of characters satisfying `P`. -/
inductive CapsBound (P : Char → Bool) : Regex → Prop
  | eps : CapsBound P .eps
  | lit (w : List Char) : CapsBound P (.lit w)
  | cls (p : Char → Bool) : CapsBound P (.cls p)
  | seq {a b : Regex} (ha : CapsBound P a) (hb : CapsBound P b) : CapsBound P (.seq a b)
  | alt {a b : Regex} (ha : CapsBound P a) (hb : CapsBound P b) : CapsBound P (.alt a b)
  | star {a : Regex} (ha : CapsBound P a) : CapsBound P (.star a)
  | group (n : Nat) {a : Regex} (ho : OnlyCls P a) (ha : CapsBound P a) :
      CapsBound P (.group n a)

/-- Case-insensitive substring containment: some suffix of `s` begins with
`w` up to case. -/
def hasCI (w : List Char) : List Char → Bool
  | [] => ciStarts w []
  | c :: t => ciStarts w (c :: t) || hasCI w t

/-- The summary/total keywords skipped by `parse_line_items`. -/
def summaryKeywords : List (List Char) :=
  ["SUBTOTAL".data, "TAX".data, "TOTAL".data, "BALANCE".data, "GST".data, "PAYABLE".data]

/-- QUOTE_MINIMAL test of Python `csv.writer` (excel dialect): a field is
quoted when it contains the delimiter, the quote character, or a
line-terminator character. -/
def csvNeedsQuote (f : List Char) : Bool :=
  f.any fun c => c == ',' || c == '"' || c == '\r' || c == '\n'

/-- Double each quote character (the writer's doublequote escaping). -/
def csvDouble : List Char → List Char
  | [] => []
  | c :: cs => if c == '"' then '"' :: '"' :: csvDouble cs else c :: csvDouble cs

/-- Encode one csv field. -/
def csvField (f : List Char) : List Char :=
  if csvNeedsQuote f then '"' :: (csvDouble f ++ ['"']) else f

/-- Comma-join of encoded fields. -/
def csvCells : List (List Char) → List Char
  | [] => []
  | [f] => csvField f
  | f :: fs => csvField f ++ ',' :: csvCells fs

/-- Encode one csv row, with the excel dialect's `\r\n` terminator.  A row
consisting of a single empty field is written as a quoted empty field, as the
Python writer does to keep it distinct from an empty row. -/
def csvRow (fs : List (List Char)) : List Char :=
  match fs with
  | [f] => (if f.isEmpty then ['"', '"'] else csvField f) ++ ['\r', '\n']
  | _ => csvCells fs ++ ['\r', '\n']

/-- Encode a csv document (one terminated row after another, as the
successive `writer.writerow` calls produce). -/
def csvDoc (rows : List (List (List Char))) : List Char :=
  (rows.map csvRow).flatten

/-- Parse a quoted field body after the opening quote: the content and what
follows the closing quote (a doubled quote is an escaped quote). -/
def csvQuoted : List Char → List Char × List Char
  | [] => ([], [])
  | c :: cs =>
    if c == '"' then
      match cs with
      | [] => ([], [])
      | c2 :: cs2 =>
        if c2 == '"' then ('"' :: (csvQuoted cs2).1, (csvQuoted cs2).2)
        else ([], cs)
    else (c :: (csvQuoted cs).1, (csvQuoted cs).2)

/-- Parse an unquoted field: everything up to a delimiter or the row
terminator. -/
def csvUnquoted : List Char → List Char × List Char
  | [] => ([], [])
  | c :: cs =>
    if c == ',' || c == '\r' then ([], c :: cs)
    else (c :: (csvUnquoted cs).1, (csvUnquoted cs).2)

/-- Parse one field, quoted or not. -/
def csvFieldParse : List Char → List Char × List Char
  | [] => ([], [])
  | c :: cs => if c == '"' then csvQuoted cs else csvUnquoted (c :: cs)

/-- Parse one record: its fields and the input after the row terminator.
`fuel` only bounds recursion depth (one unit per field, so the input length
suffices); on well-formed input each field ends at a delimiter, a terminator
or the end. -/
def csvRecord (fuel : Nat) (cs : List Char) : List (List Char) × List Char :=
  match fuel with
  | 0 => ([], cs)
  | f + 1 =>
    match (csvFieldParse cs).2 with
    | ',' :: r2 => ((csvFieldParse cs).1 :: (csvRecord f r2).1, (csvRecord f r2).2)
    | '\r' :: '\n' :: r2 => ([(csvFieldParse cs).1], r2)
    | _ => ([(csvFieldParse cs).1], [])

/-- Parse a csv document into records, an empty line giving an empty record
(as Python's `csv.reader` yields).  `fuel` bounds the number of records. -/
def csvRecords (fuel : Nat) (cs : List Char) : List (List (List Char)) :=
  match fuel with
  | 0 => []
  | f + 1 =>
    match cs with
    | [] => []
    | '\r' :: '\n' :: cs2 => [] :: csvRecords f cs2
    | cs' => (csvRecord (cs'.length + 1) cs').1 :: csvRecords f (csvRecord (cs'.length + 1) cs').2

/-- Parse a csv document. -/
def csvParse (s : List Char) : List (List (List Char)) := csvRecords (s.length + 1) s

/-- Decimal digit as a character. -/
def digitChar : ℕ → Char
  | 0 => '0'
  | 1 => '1'
  | 2 => '2'
  | 3 => '3'
  | 4 => '4'
  | 5 => '5'
  | 6 => '6'
  | 7 => '7'
  | 8 => '8'
  | _ => '9'

/-- Decimal digit run of a natural number (helper with explicit depth fuel;
`n` itself bounds the recursion depth). -/
def natDigsF (fuel : Nat) (n : ℕ) : List Char :=
  match fuel with
  | 0 => []
  | f + 1 => if n < 10 then [digitChar n] else natDigsF f (n / 10) ++ [digitChar (n % 10)]

/-- Decimal digit run of a natural number (no sign, no leading zeros except
for `0` itself). -/
def natDigs (n : ℕ) : List Char := natDigsF (n + 1) n

/-- Zero-pad a digit run on the left to width `k`. -/
def leftPad (k : ℕ) (s : List Char) : List Char := List.replicate (k - s.length) '0' ++ s

/-- Smallest scale `k` with `q * 10 ^ k` integral, when one exists up to
`q.den` (for a finite decimal the minimal scale is at most the denominator). -/
def decScale (q : ℚ) : Option ℕ :=
  (List.range (q.den + 1)).find? fun k => (q * (10 : ℚ) ^ k).den == 1

/-- Digits of the non-negative finite decimal `a`: integer digits, a point,
and the shortest fractional digit run (a sole `0` for integral values),
obtained from the minimal scale `k` and the scaled integer `a * 10 ^ k`. -/
def pyFloatReprAbs (a : ℚ) : List Char :=
  if (decScale a).getD 0 = 0 then natDigs (a * (10 : ℚ) ^ (0 : ℕ)).num.toNat ++ ['.', '0']
  else
    natDigs ((a * (10 : ℚ) ^ (decScale a).getD 0).num.toNat / 10 ^ (decScale a).getD 0) ++
      '.' :: leftPad ((decScale a).getD 0)
        (natDigs ((a * (10 : ℚ) ^ (decScale a).getD 0).num.toNat % 10 ^ (decScale a).getD 0))

/-- Python `str` of a float that carries a finite-decimal value, in the exact
rational model: an optional sign followed by the shortest decimal digit
expansion.  This is `repr` of a double restricted to the magnitudes this
program handles (no scientific notation). -/
def pyFloatRepr (q : ℚ) : List Char :=
  (if q < 0 then ['-'] else []) ++ pyFloatReprAbs (if q < 0 then -q else q)

/-- Rendering of an optional string cell (`None` is written as an empty
cell by the csv writer). -/
def strCell : Option String → List Char
  | none => []
  | some s => s.data

/-- Rendering of an optional monetary cell (`str(float)` or empty). -/
def moneyCell : Option ℚ → List Char
  | none => []
  | some q => pyFloatRepr q

/-- The rows written by `generate_csv_string`, in order: the header banner,
the seven `(label, value)` pairs, a separator, the line-item banner and
column headers, then one row per line item. -/
def invoiceRows (inv : ParsedInvoice) : List (List (List Char)) :=
  [["--- INVOICE HEADER DETAILS ---".data],
   ["Invoice ID".data, inv.invoice_id.data],
   ["Vendor Name".data, strCell inv.vendor_name],
   ["Invoice Number".data, strCell inv.invoice_number],
   ["Date".data, strCell inv.date],
   ["GST Number".data, strCell inv.gst_number],
   ["Tax Amount".data, moneyCell inv.tax_amount],
   ["Total Amount".data, moneyCell inv.total_amount],
   [],
   ["--- LINE ITEMS ---".data],
   ["Description".data, "Quantity".data, "Unit Price".data, "Line Total".data]]
  ++ inv.line_items.map fun it =>
      [it.description.data, pyFloatRepr it.quantity, moneyCell it.unit_price,
       moneyCell it.line_total]

/-- The source's `generate_csv_string`. -/
def generate_csv_string (inv : ParsedInvoice) : String := ⟨csvDoc (invoiceRows inv)⟩

/-- A rational that is a finite decimal (every Python float in range is one);
scaling by `10 ^ den` is always enough to clear a decimal denominator. -/
def IsFiniteDecimal (q : ℚ) : Prop := (q * (10 : ℚ) ^ q.den).den = 1

/-! ## Matcher decomposition lemmas -/

theorem mem_mtch_seq {f : Nat} {a b : Regex} {s : List Char} {res : List Char × Caps} :
    res ∈ Regex.mtch (f + 1) (.seq a b) s ↔
      ∃ r1 ∈ Regex.mtch f a s, ∃ r2 ∈ Regex.mtch f b r1.1, res = (r2.1, r1.2 ++ r2.2) := by
  simp [Regex.mtch, List.mem_flatMap, List.mem_map, eq_comm]

theorem mem_mtch_alt {f : Nat} {a b : Regex} {s : List Char} {res : List Char × Caps} :
    res ∈ Regex.mtch (f + 1) (.alt a b) s ↔
      res ∈ Regex.mtch f a s ∨ res ∈ Regex.mtch f b s := by
  simp [Regex.mtch]

theorem mem_mtch_lit {f : Nat} {w s : List Char} {res : List Char × Caps} :
    res ∈ Regex.mtch (f + 1) (.lit w) s ↔
      ciStarts w s = true ∧ res = (s.drop w.length, []) := by
  by_cases h : ciStarts w s <;> simp [Regex.mtch, h]

theorem mem_mtch_cls {f : Nat} {p : Char → Bool} {s : List Char} {res : List Char × Caps} :
    res ∈ Regex.mtch (f + 1) (.cls p) s ↔
      ∃ c t, s = c :: t ∧ p c = true ∧ res = (t, []) := by
  constructor
  · intro hres
    cases s with
    | nil => simp [Regex.mtch] at hres
    | cons c t =>
      by_cases h : p c
      · simp [Regex.mtch, h] at hres
        exact ⟨c, t, rfl, h, hres⟩
      · simp [Regex.mtch, h] at hres
  · rintro ⟨c, t, rfl, hc, rfl⟩
    simp [Regex.mtch, hc]

theorem mem_mtch_eps {f : Nat} {s : List Char} {res : List Char × Caps} :
    res ∈ Regex.mtch (f + 1) .eps s ↔ res = (s, []) := by
  simp [Regex.mtch]

theorem mem_mtch_group {f : Nat} {n : Nat} {a : Regex} {s : List Char} {res : List Char × Caps} :
    res ∈ Regex.mtch (f + 1) (.group n a) s ↔
      ∃ r1 ∈ Regex.mtch f a s,
        res = (r1.1, (n, s.take (s.length - r1.1.length)) :: r1.2) := by
  simp [Regex.mtch, List.mem_map, eq_comm]

theorem mem_mtch_star {f : Nat} {a : Regex} {s : List Char} {res : List Char × Caps} :
    res ∈ Regex.mtch (f + 1) (.star a) s ↔
      (∃ r1 ∈ Regex.mtch f a s, r1.1.length < s.length ∧
        ∃ r2 ∈ Regex.mtch f (.star a) r1.1, res = (r2.1, r1.2 ++ r2.2)) ∨ res = (s, []) := by
  simp only [Regex.mtch, List.mem_append, List.mem_flatMap, List.mem_filter, List.mem_map,
    List.mem_singleton]
  constructor
  · rintro (⟨r1, ⟨h1, hlt⟩, r2, h2, rfl⟩ | rfl)
    · exact Or.inl ⟨r1, h1, of_decide_eq_true hlt, r2, h2, rfl⟩
    · exact Or.inr rfl
  · rintro (⟨r1, h1, hlt, r2, h2, rfl⟩ | rfl)
    · exact Or.inl ⟨r1, ⟨h1, decide_eq_true hlt⟩, r2, h2, rfl⟩
    · exact Or.inr rfl

/-! ## Per-line item lemmas -/

theorem lineItemFromLine_quantity {pat : Regex} {line : List Char} {item : LineItem}
    (h : lineItemFromLine pat line = some item) :
    item.quantity =
      match item.unit_price, item.line_total with
      | some u, some l => if u ≠ 0 ∧ l ≠ 0 ∧ 0 < u then ((roundHE (l / u) : ℤ) : ℚ) else 1
      | _, _ => 1 := by
  unfold lineItemFromLine at h
  split at h
  · exact absurd h (by simp)
  · split at h
    · exact absurd h (by simp)
    · split at h
      · exact absurd h (by simp)
      · split at h
        · split at h
          · exact absurd h (by simp)
          · injection h with h
            subst h
            rfl
        · exact absurd h (by simp)

theorem lineItemFromLine_no_summary {pat : Regex} {line : List Char} {item : LineItem}
    (h : lineItemFromLine pat line = some item) :
    searchL summaryPattern line = none := by
  unfold lineItemFromLine at h
  split at h
  · exact absurd h (by simp)
  · next hs => exact Option.not_isSome_iff_eq_none.1 (by simpa using hs)

theorem mem_parse_line_items {raw : String} {pat : Regex} {item : LineItem}
    (h : item ∈ parse_line_items raw pat) :
    ∃ line ∈ splitLines raw.data, lineItemFromLine pat line = some item := by
  unfold parse_line_items at h
  split at h
  · simp at h
  · rw [List.mem_filterMap] at h
    obtain ⟨line, hmem, hline⟩ := h
    exact ⟨line, List.drop_subset _ _ hmem, hline⟩

/-! ## Claim C1 -/

/-- C1 (as stated) is false: on the line
`ITEM NAME 1 Rs. 150.00 Rs. 0.00` both capture groups parse successfully
(rate `150`, line total `0`) and the rate is greater than `0`, yet the
produced quantity is the default `1`, not `round(0 / 150) = 0`. -/
theorem C1_counterexample :
    parse_line_items "ITEM NAME 1 Rs. 150.00 Rs. 0.00" lineItemPattern =
      [⟨1, "ITEM NAME 1", some 150, some 0⟩] ∧
    (0 : ℚ) < 150 ∧ ((roundHE ((0 : ℚ) / 150) : ℤ) : ℚ) ≠ 1 := by
  refine ⟨by decide, by decide, by decide⟩

/-- C1 amended: every line item's quantity is `1.0` by default, and exactly
when both the unit rate (capture group 1) and line total (capture group 2)
parse successfully as numbers, **the parsed line total is nonzero** (Python's
truthiness test) and the rate is greater than `0`, the quantity instead
equals `round(line_total / unit_price)`. -/
theorem C1_amended_theorem (raw : String) (pat : Regex) (item : LineItem)
    (h : item ∈ parse_line_items raw pat) :
    item.quantity =
      match item.unit_price, item.line_total with
      | some u, some l => if u ≠ 0 ∧ l ≠ 0 ∧ 0 < u then ((roundHE (l / u) : ℤ) : ℚ) else 1
      | _, _ => 1 := by
  obtain ⟨line, _, hline⟩ := mem_parse_line_items h
  exact lineItemFromLine_quantity hline

/-- C1 witness: the reconstructed item of
`ITEM NAME 1 Rs. 150.00 Rs. 300.00` carries quantity
`round(300 / 150) = 2`. -/
theorem C1_witness :
    (⟨2, "ITEM NAME 1", some 150, some 300⟩ : LineItem).quantity =
      match (some (150 : ℚ) : Option ℚ), (some (300 : ℚ) : Option ℚ) with
      | some u, some l => if u ≠ 0 ∧ l ≠ 0 ∧ 0 < u then ((roundHE (l / u) : ℤ) : ℚ) else 1
      | _, _ => 1 :=
  C1_amended_theorem "ITEM NAME 1 Rs. 150.00 Rs. 300.00" lineItemPattern
    ⟨2, "ITEM NAME 1", some 150, some 300⟩ (by decide)

/-! ## Claim C2 -/

/-- C2: on the raw text `GRAND TOTAL: Rs. 880.00` the extractor leaves
`total_amount` absent, diverging from the specified value `880.00`: the
`total_amount` pattern allows only whitespace and an optional currency marker
between the keyword and the amount, so the colon after `GRAND TOTAL`
prevents any match.  The numeric cleaner itself does handle the value
(`880.00` parses once the pattern would capture it), and the pattern is the
sole point of failure. -/
theorem C2_code_divergence :
    (parse_invoice_data "id0" "GRAND TOTAL: Rs. 880.00").total_amount = none ∧
    searchL totalAmountPattern "GRAND TOTAL: Rs. 880.00".data = none ∧
    parse_float "880.00".data = some 880 := by
  refine ⟨by decide, by decide, by decide⟩

/-! ## Claim C3 -/

/-- C3 (as stated) is false: the raw text
`Acme Corp\nInvoice No: ACME-INV-456789` contains the substring
`Invoice No: ACME-INV-45678` and its first 5 lines contain `Acme Corp`, yet
the extracted invoice number is `456789` (the greedy digit run of the
override pattern), not `45678`. -/
theorem C3_counterexample :
    listHas "Invoice No: ACME-INV-45678".data
        "Acme Corp\nInvoice No: ACME-INV-456789".data = true ∧
    isKnownVendor "Acme Corp\nInvoice No: ACME-INV-456789" = true ∧
    (parse_invoice_data "id0" "Acme Corp\nInvoice No: ACME-INV-456789").invoice_number =
      some "456789" ∧
    (parse_invoice_data "id0" "Acme Corp\nInvoice No: ACME-INV-456789").invoice_number ≠
      some "45678" := by
  refine ⟨by decide, by decide, by decide, by decide⟩

theorem parse_invoice_data_invoice_number (id raw : String) :
    (parse_invoice_data id raw).invoice_number = extractStr (effInvoicePattern raw) raw.data :=
  rfl

/-- C3 amended: for the spec's example document
`Acme Corp\nInvoice No: ACME-INV-45678` — where the override pattern's first
match is exactly the digit run `45678` — the extractor selects the Acme
vendor override (whatever identifier the extraction was given) and yields
invoice number `45678`; the base pattern alone yields nothing here, so the
value can only come from the override. -/
theorem C3_amended_theorem (id : String) :
    isKnownVendor "Acme Corp\nInvoice No: ACME-INV-45678" = true ∧
    (parse_invoice_data id "Acme Corp\nInvoice No: ACME-INV-45678").invoice_number =
      some "45678" ∧
    extractStr invoiceNumberPattern "Acme Corp\nInvoice No: ACME-INV-45678".data = none := by
  refine ⟨by decide, ?_, by decide⟩
  rw [parse_invoice_data_invoice_number]
  decide

/-! ## Claim C4 -/

/-- C4 (as stated) is false: on the line
`ITEM NAME 1 Rs. 150.00 Rs. 10.00` the reconstructed quantity is
`round(10 / 150) = 0`, which is not strictly positive. -/
theorem C4_counterexample :
    parse_line_items "ITEM NAME 1 Rs. 150.00 Rs. 10.00" lineItemPattern =
      [⟨0, "ITEM NAME 1", some 150, some 10⟩] ∧
    ¬ ((0 : ℚ) < (⟨0, "ITEM NAME 1", some 150, some 10⟩ : LineItem).quantity) := by
  refine ⟨by decide, by decide⟩

/-! ## Claim C5 -/

/-- C5: with the effective (overlay-resolved) pattern set, a field whose
pattern finds no match anywhere in the text is left absent while the
extraction still returns a complete record, and a matched monetary value
whose numeric cleaning fails is likewise left absent. -/
theorem C5_theorem (id raw : String) :
    (searchL (effInvoicePattern raw) raw.data = none →
      (parse_invoice_data id raw).invoice_number = none) ∧
    (searchL (effDatePattern raw) raw.data = none →
      (parse_invoice_data id raw).date = none) ∧
    (searchL vendorNamePattern raw.data = none →
      (parse_invoice_data id raw).vendor_name = none) ∧
    (searchL gstNumberPattern raw.data = none →
      (parse_invoice_data id raw).gst_number = none) ∧
    (searchL totalAmountPattern raw.data = none →
      (parse_invoice_data id raw).total_amount = none) ∧
    (searchL taxAmountPattern raw.data = none →
      (parse_invoice_data id raw).tax_amount = none) ∧
    (∀ w, fieldMatch totalAmountPattern raw.data = some w → parse_float (pyStrip w) = none →
      (parse_invoice_data id raw).total_amount = none) ∧
    (∀ w, fieldMatch taxAmountPattern raw.data = some w → parse_float (pyStrip w) = none →
      (parse_invoice_data id raw).tax_amount = none) := by
  refine ⟨fun h => ?_, fun h => ?_, fun h => ?_, fun h => ?_, fun h => ?_, fun h => ?_,
    fun w hm hp => ?_, fun w hm hp => ?_⟩
  · simp [parse_invoice_data, extractStr, fieldMatch, h]
  · simp [parse_invoice_data, extractStr, fieldMatch, h]
  · simp [parse_invoice_data, extractStr, fieldMatch, h]
  · simp [parse_invoice_data, extractStr, fieldMatch, h]
  · simp [parse_invoice_data, extractMoney, fieldMatch, h]
  · simp [parse_invoice_data, extractMoney, fieldMatch, h]
  · simp [parse_invoice_data, extractMoney, hm, hp]
  · simp [parse_invoice_data, extractMoney, hm, hp]

/-- C5 witness: a text matching no field pattern yields a record with absent
fields, and `TOTAL 1.2.3` matches the total pattern but fails numeric
cleaning, leaving `total_amount` absent. -/
theorem C5_witness :
    (parse_invoice_data "i" "hello world").invoice_number = none ∧
    (parse_invoice_data "i" "hello world").date = none ∧
    (parse_invoice_data "i" "hello world").vendor_name = none ∧
    (parse_invoice_data "i" "hello world").gst_number = none ∧
    (parse_invoice_data "i" "hello world").total_amount = none ∧
    (parse_invoice_data "i" "hello world").tax_amount = none ∧
    (parse_invoice_data "i" "TOTAL 1.2.3").total_amount = none :=
  ⟨( C5_theorem "i" "hello world").1 (by decide),
   ( C5_theorem "i" "hello world").2.1 (by decide),
   ( C5_theorem "i" "hello world").2.2.1 (by decide),
   ( C5_theorem "i" "hello world").2.2.2.1 (by decide),
   ( C5_theorem "i" "hello world").2.2.2.2.1 (by decide),
   ( C5_theorem "i" "hello world").2.2.2.2.2.1 (by decide),
   ( C5_theorem "i" "TOTAL 1.2.3").2.2.2.2.2.2.1 "1.2.3".data (by decide) (by decide)⟩

/-! ## Claim C6 -/

/-- C6: line-item reconstruction is a total function returning an ordered
list; when no line matches the section-header signature `ITEM NAME \d`
(case-insensitively), it returns the empty list. -/
theorem C6_theorem (raw : String) (pat : Regex)
    (h : ∀ l ∈ splitLines raw.data, searchL headerSignaturePattern l = none) :
    parse_line_items raw pat = [] := by
  unfold parse_line_items
  have : (splitLines raw.data).findIdx?
      (fun l => (searchL headerSignaturePattern l).isSome) = none := by
    rw [List.findIdx?_eq_none_iff]
    intro l hl
    simp [h l hl]
  simp [this]

/-- C6 witness: a header-free text produces no line items. -/
theorem C6_witness : parse_line_items "hello" lineItemPattern = [] :=
  C6_theorem "hello" lineItemPattern (by decide)

/-! ## Search and capture metatheory -/

theorem capLookup_mem {n : Nat} {g : Caps} {w : List Char} (h : capLookup n g = some w) :
    (n, w) ∈ g := by
  induction g with
  | nil => simp [capLookup] at h
  | cons p rest ih =>
    obtain ⟨m, u⟩ := p
    by_cases hm : m = n
    · subst hm
      simp [capLookup] at h
      rw [← h]
      exact List.mem_cons_self _ _
    · simp [capLookup, hm] at h
      exact List.mem_cons_of_mem _ (ih h)

theorem searchL_some_exists {r : Regex} {s : List Char} {g : Caps}
    (h : searchL r s = some g) :
    ∃ t res, res ∈ Regex.mtch (runFuel r t) r t ∧ res.2 = g := by
  induction s with
  | nil =>
    unfold searchL at h
    cases hm : Regex.mtch (runFuel r []) r [] with
    | nil => rw [hm] at h; simp at h
    | cons a l =>
      rw [hm] at h
      simp at h
      exact ⟨[], a, by rw [hm]; exact List.mem_cons_self _ _, h⟩
  | cons c t ih =>
    unfold searchL at h
    cases hm : Regex.mtch (runFuel r (c :: t)) r (c :: t) with
    | nil => rw [hm] at h; exact ih h
    | cons a l =>
      rw [hm] at h
      simp at h
      exact ⟨c :: t, a, by rw [hm]; exact List.mem_cons_self _ _, h⟩

theorem mtch_onlyCls {P : Char → Bool} :
    ∀ {f : Nat} {r : Regex} {s : List Char} {res : List Char × Caps},
      OnlyCls P r → res ∈ Regex.mtch f r s →
      ∃ pre, s = pre ++ res.1 ∧ ∀ c ∈ pre, P c = true := by
  intro f
  induction f with
  | zero => intro r s res _ h; simp [Regex.mtch] at h
  | succ f ihf =>
    intro r s res ho h
    cases ho with
    | eps =>
      rw [mem_mtch_eps] at h
      subst h
      exact ⟨[], rfl, by simp⟩
    | cls p hp =>
      rw [mem_mtch_cls] at h
      obtain ⟨c, t, rfl, hc, rfl⟩ := h
      exact ⟨[c], rfl, by simpa using hp c hc⟩
    | seq ha hb =>
      rw [mem_mtch_seq] at h
      obtain ⟨r1, h1, r2, h2, rfl⟩ := h
      obtain ⟨p1, hs1, hp1⟩ := ihf ha h1
      obtain ⟨p2, hs2, hp2⟩ := ihf hb h2
      refine ⟨p1 ++ p2, ?_, ?_⟩
      · rw [hs1, hs2, List.append_assoc]
      · intro c hc
        rcases List.mem_append.1 hc with hc | hc
        exacts [hp1 c hc, hp2 c hc]
    | alt ha hb =>
      rw [mem_mtch_alt] at h
      rcases h with h | h
      exacts [ihf ha h, ihf hb h]
    | star ha =>
      rw [mem_mtch_star] at h
      rcases h with ⟨r1, h1, -, r2, h2, rfl⟩ | rfl
      · obtain ⟨p1, hs1, hp1⟩ := ihf ha h1
        obtain ⟨p2, hs2, hp2⟩ := ihf (OnlyCls.star ha) h2
        refine ⟨p1 ++ p2, by rw [hs1, hs2, List.append_assoc], ?_⟩
        intro c hc
        rcases List.mem_append.1 hc with hc | hc
        exacts [hp1 c hc, hp2 c hc]
      · exact ⟨[], rfl, by simp⟩

theorem mtch_capsBound {P : Char → Bool} :
    ∀ {f : Nat} {r : Regex} {s : List Char} {res : List Char × Caps},
      CapsBound P r → res ∈ Regex.mtch f r s →
      ∀ pr ∈ res.2, ∀ c ∈ pr.2, P c = true := by
  intro f
  induction f with
  | zero => intro r s res _ h; simp [Regex.mtch] at h
  | succ f ihf =>
    intro r s res hb h
    cases hb with
    | eps =>
      rw [mem_mtch_eps] at h
      subst h
      simp
    | lit w =>
      rw [mem_mtch_lit] at h
      obtain ⟨-, rfl⟩ := h
      simp
    | cls p =>
      rw [mem_mtch_cls] at h
      obtain ⟨c, t, -, -, rfl⟩ := h
      simp
    | seq ha hb' =>
      rw [mem_mtch_seq] at h
      obtain ⟨r1, h1, r2, h2, rfl⟩ := h
      intro pr hpr
      rcases List.mem_append.1 hpr with hpr | hpr
      exacts [ihf ha h1 pr hpr, ihf hb' h2 pr hpr]
    | alt ha hb' =>
      rw [mem_mtch_alt] at h
      rcases h with h | h
      exacts [ihf ha h, ihf hb' h]
    | star ha =>
      rw [mem_mtch_star] at h
      rcases h with ⟨r1, h1, -, r2, h2, rfl⟩ | rfl
      · intro pr hpr
        rcases List.mem_append.1 hpr with hpr | hpr
        exacts [ihf ha h1 pr hpr, ihf (CapsBound.star ha) h2 pr hpr]
      · simp
    | group n ho ha =>
      rw [mem_mtch_group] at h
      obtain ⟨r1, h1, rfl⟩ := h
      intro pr hpr
      rcases List.mem_cons.1 hpr with rfl | hpr
      · obtain ⟨pre, hs, hpre⟩ := mtch_onlyCls ho h1
        have htake : s.take (s.length - r1.1.length) = pre := by
          rw [hs, List.length_append, Nat.add_sub_cancel]
          exact List.take_left pre r1.1
        intro c hc
        simp only [htake] at hc
        exact hpre c hc
      · exact ihf ha h1 pr hpr

theorem mem_mtch_group_lit {f : Nat} {n : Nat} {L s : List Char} {res : List Char × Caps}
    (h : res ∈ Regex.mtch f (.group n (.lit L)) s) :
    ciStarts L s = true ∧
      res = (s.drop L.length, [(n, s.take (s.length - (s.drop L.length).length))]) := by
  cases f with
  | zero => simp [Regex.mtch] at h
  | succ f =>
    rw [mem_mtch_group] at h
    obtain ⟨r1, h1, rfl⟩ := h
    cases f with
    | zero => simp [Regex.mtch] at h1
    | succ f =>
      rw [mem_mtch_lit] at h1
      obtain ⟨hci, rfl⟩ := h1
      exact ⟨hci, rfl⟩

theorem ciStarts_length_le : ∀ {w s : List Char}, ciStarts w s = true → w.length ≤ s.length := by
  intro w
  induction w with
  | nil => intro s _; simp
  | cons c w ih =>
    intro s h
    cases s with
    | nil => simp [ciStarts] at h
    | cons d t =>
      simp only [ciStarts, Bool.and_eq_true] at h
      simpa using ih h.2

theorem ciStarts_lower : ∀ {w s : List Char}, ciStarts w s = true →
    (s.take w.length).map lowerChar = w.map lowerChar := by
  intro w
  induction w with
  | nil => intro s _; simp
  | cons c w ih =>
    intro s h
    cases s with
    | nil => simp [ciStarts] at h
    | cons d t =>
      simp only [ciStarts, Bool.and_eq_true] at h
      have hcd : lowerChar d = lowerChar c := by
        have := h.1
        unfold cieq at this
        exact (beq_iff_eq.1 this).symm
      simp [List.take_succ_cons, hcd, ih h.2]

theorem lowerChar_space_fix {c : Char} (h : isSpaceB c = true) : lowerChar c = c := by
  unfold isSpaceB at h
  simp only [Bool.or_eq_true, beq_iff_eq] at h
  rcases h with ((((rfl | rfl) | rfl) | rfl) | rfl) | rfl <;> decide

theorem lower_ne_space {c d : Char} (h : lowerChar c = d) (hd : isSpaceB d = false) :
    isSpaceB c = false := by
  by_contra hc
  rw [Bool.not_eq_false] at hc
  rw [lowerChar_space_fix hc] at h
  rw [h] at hc
  rw [hc] at hd
  exact absurd hd (by simp)

theorem dropWhile_cons_of_neg {p : Char → Bool} {x : Char} {l : List Char}
    (h : p x = false) : (x :: l).dropWhile p = x :: l := by
  simp [List.dropWhile_cons, h]

theorem pyStrip_eq_self_of_ends {w : List Char} (hne : w ≠ [])
    (h1 : isSpaceB w.headI = false) (h2 : isSpaceB w.reverse.headI = false) :
    pyStrip w = w := by
  obtain ⟨x, l, rfl⟩ := List.exists_cons_of_ne_nil hne
  simp only [List.headI] at h1
  unfold pyStrip
  rw [dropWhile_cons_of_neg h1]
  cases hr : (x :: l).reverse with
  | nil => simp at hr
  | cons y yr =>
    have h2' : isSpaceB y = false := by rw [hr] at h2; simpa using h2
    rw [dropWhile_cons_of_neg h2', ← hr, List.reverse_reverse]

/-! ## Claim C4, amended statement -/

theorem lineItemFromLine_shape {pat : Regex} {line : List Char} {item : LineItem}
    (h : lineItemFromLine pat line = some item) :
    ∃ caps, searchL pat line = some caps ∧
      ∃ g1 g2, capLookup 1 caps = some g1 ∧ capLookup 2 caps = some g2 ∧
        item.unit_price = parse_float (pyStrip g1) ∧
        item.line_total = parse_float (pyStrip g2) := by
  unfold lineItemFromLine at h
  split at h
  · exact absurd h (by simp)
  · split at h
    · exact absurd h (by simp)
    · rename_i caps hcaps
      split at h
      · exact absurd h (by simp)
      · split at h
        · rename_i g1 g2 hg1 hg2
          split at h
          · exact absurd h (by simp)
          · injection h with h
            subst h
            exact ⟨caps, hcaps, g1, g2, hg1, hg2, rfl, rfl⟩
        · exact absurd h (by simp)

theorem lineItemPattern_capsBound : CapsBound isNumTokB lineItemPattern := by
  have h : lineItemPattern =
      .seq (.lit "ITEM NAME ".data) (.seq (.cls isDigitB)
        (.seq (.seq (.cls isSpaceB) (.star (.cls isSpaceB)))
          (.seq (.lit "Rs.".data) (.seq (.star (.cls isSpaceB))
            (.seq (.group 1 (.seq (.cls isNumTokB) (.star (.cls isNumTokB))))
              (.seq (.seq (.cls isSpaceB) (.star (.cls isSpaceB)))
                (.seq (.lit "Rs.".data) (.seq (.star (.cls isSpaceB))
                  (.seq (.group 2 (.seq (.cls isNumTokB) (.star (.cls isNumTokB))))
                    .eps))))))))) := rfl
  rw [h]
  refine CapsBound.seq (.lit _) (.seq (.cls _) (.seq (.seq (.cls _) (.star (.cls _)))
    (.seq (.lit _) (.seq (.star (.cls _)) (.seq (.group 1 ?_ (.seq (.cls _) (.star (.cls _))))
      (.seq (.seq (.cls _) (.star (.cls _))) (.seq (.lit _) (.seq (.star (.cls _))
        (.seq (.group 2 ?_ (.seq (.cls _) (.star (.cls _)))) .eps)))))))))
  · exact OnlyCls.seq (.cls _ fun c hc => hc) (.star (.cls _ fun c hc => hc))
  · exact OnlyCls.seq (.cls _ fun c hc => hc) (.star (.cls _ fun c hc => hc))

theorem pyStrip_subset {s : List Char} : ∀ c ∈ pyStrip s, c ∈ s := by
  intro c hc
  unfold pyStrip at hc
  rw [List.mem_reverse] at hc
  have h1 := List.dropWhile_subset _ hc
  rw [List.mem_reverse] at h1
  exact List.dropWhile_subset _ h1

theorem stripSign_no_sign {s : List Char}
    (h : ∀ c ∈ s, (c == '-') = false ∧ (c == '+') = false) : stripSign s = (1, s) := by
  cases s with
  | nil => rfl
  | cons c t =>
    have hc := h c (by simp)
    simp [stripSign, hc.1, hc.2]

theorem splitExpAt_no_e {s : List Char}
    (h : ∀ c ∈ s, (c == 'e' || c == 'E') = false) : splitExpAt s = (s, none) := by
  induction s with
  | nil => rfl
  | cons c t ih =>
    have hc := h c (by simp)
    simp only [Bool.or_eq_false_iff] at hc
    simp [splitExpAt, hc.1, hc.2, ih fun d hd => h d (by simp [hd])]

theorem parseMant_nonneg {m : List Char} {q : ℚ} (h : parseMant m = some q) : 0 ≤ q := by
  unfold parseMant at h
  split at h
  · split at h
    · injection h with h
      rw [← h]
      positivity
    · exact absurd h (by simp)
  · split at h
    · injection h with h
      rw [← h]
      positivity
    · exact absurd h (by simp)

theorem parse_float_nonneg {v : List Char} (hv : ∀ c ∈ v, isNumTokB c = true)
    {q : ℚ} (h : parse_float v = some q) : 0 ≤ q := by
  unfold parse_float at h
  split at h
  · exact absurd h (by simp)
  · have hsub : ∀ c ∈ pyStrip (v.filter fun c => !(isCurrencyB c)),
        isNumTokB c = true ∧ isCurrencyB c = false := by
      intro c hc
      have hc' := pyStrip_subset c hc
      rw [List.mem_filter] at hc'
      exact ⟨hv c hc'.1, by simpa using hc'.2⟩
    have hdd : ∀ c ∈ pyStrip (v.filter fun c => !(isCurrencyB c)),
        isDigitB c = true ∨ c = '.' := by
      intro c hc
      obtain ⟨hnum, hcur⟩ := hsub c hc
      unfold isNumTokB at hnum
      simp only [Bool.or_eq_true, beq_iff_eq] at hnum
      rcases hnum with (hd | rfl) | rfl
      · exact Or.inl hd
      · exact absurd hcur (by decide)
      · exact Or.inr rfl
    have hnosign : ∀ c ∈ pyStrip (v.filter fun c => !(isCurrencyB c)),
        (c == '-') = false ∧ (c == '+') = false := by
      intro c hc
      rcases hdd c hc with hd | rfl
      · constructor <;> (rw [beq_eq_false_iff_ne]; rintro rfl; exact absurd hd (by decide))
      · exact ⟨by decide, by decide⟩
    have hnoe : ∀ c ∈ pyStrip (v.filter fun c => !(isCurrencyB c)),
        (c == 'e' || c == 'E') = false := by
      intro c hc
      rcases hdd c hc with hd | rfl
      · simp only [Bool.or_eq_false_iff]
        constructor <;> (rw [beq_eq_false_iff_ne]; rintro rfl; exact absurd hd (by decide))
      · decide
    unfold pyFloat at h
    rw [stripSign_no_sign hnosign] at h
    dsimp only at h
    rw [splitExpAt_no_e hnoe] at h
    dsimp only at h
    rw [Option.map_eq_some'] at h
    obtain ⟨q0, hq0, hq⟩ := h
    have h0 := parseMant_nonneg hq0
    rw [← hq]
    have h1 : (((1 : ℤ) : ℚ)) = 1 := by norm_num
    rw [h1, one_mul]
    exact h0

theorem roundHE_nonneg {q : ℚ} (h : 0 ≤ q) : 0 ≤ roundHE q := by
  have hf : 0 ≤ Int.fdiv q.num q.den :=
    Int.fdiv_nonneg (Rat.num_nonneg.2 h) (Int.ofNat_nonneg _)
  unfold roundHE ratFloor
  split
  · exact hf
  · split
    · omega
    · split
      · exact hf
      · omega

/-- C4 (amended): with the repository's line-item pattern, every produced
LineItem has a non-negative quantity (the capture groups consist of digits,
commas and dots, so the parsed amounts are non-negative, and the quantity is
either the default `1` or `round` of a non-negative ratio). -/
theorem C4_amended_theorem (raw : String) (item : LineItem)
    (h : item ∈ parse_line_items raw lineItemPattern) : 0 ≤ item.quantity := by
  obtain ⟨line, -, hline⟩ := mem_parse_line_items h
  obtain ⟨caps, hsearch, g1, g2, hg1, hg2, hup, hlt⟩ := lineItemFromLine_shape hline
  have hq := lineItemFromLine_quantity hline
  obtain ⟨t, res, hres, hcapseq⟩ := searchL_some_exists hsearch
  have hcaps := mtch_capsBound lineItemPattern_capsBound hres
  rw [hcapseq] at hcaps
  have hg2chars : ∀ c ∈ g2, isNumTokB c = true := hcaps _ (capLookup_mem hg2)
  rw [hq]
  cases hup' : item.unit_price with
  | none => exact zero_le_one
  | some u =>
    cases hlt' : item.line_total with
    | none => exact zero_le_one
    | some l =>
      dsimp only
      by_cases hcond : u ≠ 0 ∧ l ≠ 0 ∧ 0 < u
      · have hpf : parse_float (pyStrip g2) = some l := by rw [← hlt]; exact hlt'
        have hl : 0 ≤ l :=
          parse_float_nonneg (fun c hc => hg2chars c (pyStrip_subset c hc)) hpf
        have hq0 : (0 : ℚ) ≤ l / u := div_nonneg hl (le_of_lt hcond.2.2)
        rw [if_pos hcond]
        exact_mod_cast roundHE_nonneg hq0
      · rw [if_neg hcond]
        norm_num

/-- C4 witness: the item reconstructed from
`ITEM NAME 1 Rs. 150.00 Rs. 300.00` has a non-negative quantity. -/
theorem C4_witness :
    0 ≤ (⟨2, "ITEM NAME 1", some 150, some 300⟩ : LineItem).quantity :=
  C4_amended_theorem "ITEM NAME 1 Rs. 150.00 Rs. 300.00"
    ⟨2, "ITEM NAME 1", some 150, some 300⟩ (by decide)

/-! ## Claim C10 -/

/-- C10: the vendor name is never set by the Acme override (whose mapping has
no `vendor_name` entry — the field always comes from the base pattern), and
whenever it is present it equals `S.K.P.S DIGITAL` up to letter case. -/
theorem C10_theorem :
    (∀ id raw : String,
      (parse_invoice_data id raw).vendor_name = extractStr vendorNamePattern raw.data) ∧
    ∀ id raw v : String, (parse_invoice_data id raw).vendor_name = some v →
      v.data.map lowerChar = "S.K.P.S DIGITAL".data.map lowerChar := by
  refine ⟨fun id raw => rfl, fun id raw v h => ?_⟩
  replace h : extractStr vendorNamePattern raw.data = some v := h
  unfold extractStr at h
  rw [Option.map_eq_some'] at h
  obtain ⟨w, hw, hv⟩ := h
  unfold fieldMatch at hw
  rw [Option.bind_eq_some] at hw
  obtain ⟨g, hg, hcap⟩ := hw
  obtain ⟨t, res, hres, hres2⟩ := searchL_some_exists hg
  obtain ⟨hci, hres_eq⟩ :=
    mem_mtch_group_lit (n := 1) (L := "S.K.P.S DIGITAL".data) hres
  rw [hres_eq] at hres2
  simp only at hres2
  rw [← hres2] at hcap
  have hlen := ciStarts_length_le hci
  have hw_eq : w = t.take ("S.K.P.S DIGITAL".data).length := by
    simp only [capLookup, List.length_drop, if_pos rfl] at hcap
    injection hcap with hcap
    rw [← hcap, Nat.sub_sub_self hlen]
  have hwl : w.map lowerChar = "s.k.p.s digital".data := by
    rw [hw_eq, ciStarts_lower hci]
    decide
  have hne : w ≠ [] := by
    intro hw0
    rw [hw0] at hwl
    simp at hwl
  have hh : isSpaceB w.headI = false := by
    obtain ⟨x, l, rfl⟩ := List.exists_cons_of_ne_nil hne
    have hx : lowerChar x = 's' := by
      have := congrArg List.headI hwl
      simpa using this
    simpa using lower_ne_space hx (by decide)
  have hr : isSpaceB w.reverse.headI = false := by
    have hne' : w.reverse ≠ [] := fun h0 => hne (by simpa using h0)
    obtain ⟨y, yr, hyr⟩ := List.exists_cons_of_ne_nil hne'
    have hu : w.reverse.map lowerChar = ("s.k.p.s digital".data).reverse := by
      rw [List.map_reverse, hwl]
    rw [hyr] at hu
    have hLrev : ("s.k.p.s digital".data).reverse.headI = 'l' := by decide
    have hy : lowerChar y = 'l' := by
      have h' := congrArg List.headI hu
      rw [hLrev] at h'
      simpa using h'
    rw [hyr]
    simpa using lower_ne_space hy (by decide)
  have hstrip : pyStrip w = w := pyStrip_eq_self_of_ends hne hh hr
  rw [← hv]
  show (pyStrip w).map lowerChar = _
  rw [hstrip, hwl]
  decide

/-- C10 witness: a document whose text is exactly the vendor signature
yields that vendor name, which equals the signature up to case. -/
theorem C10_witness :
    (parse_invoice_data "i" "S.K.P.S DIGITAL").vendor_name = some "S.K.P.S DIGITAL" ∧
    ("S.K.P.S DIGITAL" : String).data.map lowerChar =
      "S.K.P.S DIGITAL".data.map lowerChar :=
  ⟨by decide, C10_theorem.2 "i" "S.K.P.S DIGITAL" "S.K.P.S DIGITAL" (by decide)⟩

/-! ## CSV round-trip lemmas -/

theorem csvQuoted_pair (cs : List Char) :
    csvQuoted ('"' :: '"' :: cs) = ('"' :: (csvQuoted cs).1, (csvQuoted cs).2) := rfl

theorem csvQuoted_close {c : Char} {cs : List Char} (h : (c == '"') = false) :
    csvQuoted ('"' :: c :: cs) = ([], c :: cs) := by
  have huf : csvQuoted ('"' :: c :: cs) =
      if c == '"' then ('"' :: (csvQuoted cs).1, (csvQuoted cs).2)
      else ([], c :: cs) := rfl
  rw [huf, h]
  simp

theorem csvQuoted_cons_ne {c : Char} {cs : List Char} (h : (c == '"') = false) :
    csvQuoted (c :: cs) = (c :: (csvQuoted cs).1, (csvQuoted cs).2) := by
  cases cs with
  | nil => simp [csvQuoted, h]
  | cons c2 cs2 => simp [csvQuoted, h]

theorem csvQuoted_rt : ∀ {f rest : List Char}, rest.headI ≠ '"' →
    csvQuoted (csvDouble f ++ '"' :: rest) = (f, rest) := by
  intro f
  induction f with
  | nil =>
    intro rest hrest
    cases rest with
    | nil => rfl
    | cons r0 rr =>
      have h0 : (r0 == '"') = false := by
        rw [beq_eq_false_iff_ne]
        simpa using hrest
      exact csvQuoted_close h0
  | cons a f' ih =>
    intro rest hrest
    by_cases ha : a = '"'
    · subst ha
      rw [show csvDouble ('"' :: f') = '"' :: '"' :: csvDouble f' from rfl]
      rw [List.cons_append, List.cons_append, csvQuoted_pair, ih hrest]
    · have ha' : (a == '"') = false := by rw [beq_eq_false_iff_ne]; exact ha
      rw [show csvDouble (a :: f') = if a == '"' then '"' :: '"' :: csvDouble f'
        else a :: csvDouble f' from rfl, ha']
      simp only [Bool.false_eq_true, if_false, List.cons_append]
      rw [csvQuoted_cons_ne ha', ih hrest]

theorem csvUnquoted_rt : ∀ {f rest : List Char}, csvNeedsQuote f = false →
    (rest = [] ∨ rest.headI = ',' ∨ rest.headI = '\r') →
    csvUnquoted (f ++ rest) = (f, rest) := by
  intro f
  induction f with
  | nil =>
    intro rest _ hrest
    cases rest with
    | nil => rfl
    | cons r0 rr =>
      rcases hrest with h | h | h
      · simp at h
      · simp only [List.headI] at h
        subst h
        simp [csvUnquoted]
      · simp only [List.headI] at h
        subst h
        simp [csvUnquoted]
  | cons c f' ih =>
    intro rest hf hrest
    rw [csvNeedsQuote, List.any_cons, Bool.or_eq_false_iff] at hf
    obtain ⟨hc, hf'⟩ := hf
    simp only [Bool.or_eq_false_iff] at hc
    have hcond : (c == ',' || c == '\r') = false := by
      rw [Bool.or_eq_false_iff]
      exact ⟨hc.1.1.1, hc.1.2⟩
    have hrec := @ih rest hf' hrest
    simp [csvUnquoted, hcond, hrec]

theorem csvFieldParse_rt {f rest : List Char}
    (hrest : rest = [] ∨ rest.headI = ',' ∨ rest.headI = '\r') :
    csvFieldParse (csvField f ++ rest) = (f, rest) := by
  by_cases hq : csvNeedsQuote f = true
  · have hrest' : rest.headI ≠ '"' := by
      rcases hrest with rfl | h | h
      · show (List.headI []) ≠ '"'
        decide
      · rw [h]; decide
      · rw [h]; decide
    rw [csvField, if_pos hq]
    have hassoc : ('"' :: (csvDouble f ++ ['"'])) ++ rest =
        '"' :: (csvDouble f ++ '"' :: rest) := by simp
    rw [hassoc]
    simp [csvFieldParse, csvQuoted_rt hrest']
  · rw [Bool.not_eq_true] at hq
    rw [csvField, if_neg (by simp [hq])]
    cases f with
    | nil =>
      simp only [List.nil_append]
      rcases hrest with rfl | h | h
      · rfl
      · cases rest with
        | nil => rfl
        | cons r0 rr =>
          simp only [List.headI] at h
          subst h
          simp [csvFieldParse, csvUnquoted]
      · cases rest with
        | nil => rfl
        | cons r0 rr =>
          simp only [List.headI] at h
          subst h
          simp [csvFieldParse, csvUnquoted]
    | cons c f' =>
      have hc : (c == '"') = false := by
        rw [csvNeedsQuote, List.any_cons, Bool.or_eq_false_iff] at hq
        have := hq.1
        simp only [Bool.or_eq_false_iff] at this
        exact this.1.1.2
      simp only [List.cons_append]
      have := @csvUnquoted_rt (c :: f') rest hq hrest
      simp only [List.cons_append] at this
      simp [csvFieldParse, hc, this]

theorem csvRecord_cells_rt : ∀ {fs : List (List Char)} {rest : List Char} {fuel : Nat},
    fs ≠ [] → fs.length ≤ fuel →
    csvRecord fuel (csvCells fs ++ '\r' :: '\n' :: rest) = (fs, rest) := by
  intro fs
  induction fs with
  | nil => intro rest fuel h _; exact absurd rfl h
  | cons f fs' ih =>
    intro rest fuel _ hfuel
    cases fuel with
    | zero => simp at hfuel
    | succ g =>
      cases fs' with
      | nil =>
        have hfp := @csvFieldParse_rt f ('\r' :: '\n' :: rest) (Or.inr (Or.inr rfl))
        show csvRecord (g + 1) (csvField f ++ '\r' :: '\n' :: rest) = ([f], rest)
        simp [csvRecord, hfp]
      | cons f2 fs2 =>
        have hfp := @csvFieldParse_rt f
          (',' :: (csvCells (f2 :: fs2) ++ '\r' :: '\n' :: rest))
          (Or.inr (Or.inl rfl))
        have hassoc : csvCells (f :: f2 :: fs2) ++ '\r' :: '\n' :: rest =
            csvField f ++ ',' :: (csvCells (f2 :: fs2) ++ '\r' :: '\n' :: rest) := by
          rw [show csvCells (f :: f2 :: fs2) =
            csvField f ++ ',' :: csvCells (f2 :: fs2) from rfl]
          simp
        rw [hassoc]
        have hih := @ih rest g (by simp)
          (by simpa using Nat.le_of_succ_le_succ hfuel)
        simp [csvRecord, hfp, hih]

theorem csvRecord_row_rt {fs : List (List Char)} {rest : List Char} {fuel : Nat}
    (hne : fs ≠ []) (hfuel : fs.length ≤ fuel) :
    csvRecord fuel (csvRow fs ++ rest) = (fs, rest) := by
  cases fs with
  | nil => exact absurd rfl hne
  | cons f fs' =>
    cases fs' with
    | cons f2 fs2 =>
      have hrw : csvRow (f :: f2 :: fs2) ++ rest =
          csvCells (f :: f2 :: fs2) ++ '\r' :: '\n' :: rest := by
        rw [show csvRow (f :: f2 :: fs2) =
          csvCells (f :: f2 :: fs2) ++ ['\r', '\n'] from rfl]
        simp
      rw [hrw]
      exact csvRecord_cells_rt (by simp) hfuel
    | nil =>
      by_cases hf : f.isEmpty
      · have hfnil : f = [] := by simpa using hf
        subst hfnil
        cases fuel with
        | zero => simp at hfuel
        | succ g =>
          have hrw : csvRow [([] : List Char)] ++ rest =
              '"' :: '"' :: '\r' :: '\n' :: rest := by
            rw [show csvRow [([] : List Char)] = ['"', '"', '\r', '\n'] from rfl]
            rfl
          rw [hrw]
          have hcr : (('\r' : Char) == '"') = false := by decide
          have hfp : csvFieldParse ('"' :: '"' :: '\r' :: '\n' :: rest) =
              ([], '\r' :: '\n' :: rest) := by
            simp [csvFieldParse, csvQuoted, hcr]
          simp [csvRecord, hfp]
      · have hrw : csvRow [f] ++ rest = csvCells [f] ++ '\r' :: '\n' :: rest := by
          rw [show csvRow [f] = (if f.isEmpty then ['"', '"'] else csvField f) ++
            ['\r', '\n'] from rfl, if_neg hf]
          simp [csvCells]
        rw [hrw]
        exact csvRecord_cells_rt (by simp) hfuel

theorem csvField_head_ne {f : List Char} {c : Char} {t : List Char}
    (h : csvField f = c :: t) : c ≠ '\r' := by
  unfold csvField at h
  split at h
  · injection h with h1 _
    rw [← h1]
    decide
  · rename_i hq
    rw [Bool.not_eq_true] at hq
    rw [h] at hq
    rw [csvNeedsQuote, List.any_cons, Bool.or_eq_false_iff] at hq
    have := hq.1
    simp only [Bool.or_eq_false_iff] at this
    rw [← beq_eq_false_iff_ne]
    exact this.1.2

theorem csvRow_shape {fs : List (List Char)} (hne : fs ≠ []) :
    ∃ c cs, csvRow fs = c :: cs ∧ c ≠ '\r' := by
  cases fs with
  | nil => exact absurd rfl hne
  | cons f fs' =>
    cases fs' with
    | nil =>
      by_cases hf : f.isEmpty
      · exact ⟨'"', ['"', '\r', '\n'], by simp [csvRow, hf], by decide⟩
      · have hfne : f ≠ [] := by simpa using hf
        cases hcf : csvField f with
        | nil =>
          exfalso
          unfold csvField at hcf
          split at hcf
          · simp at hcf
          · exact absurd hcf hfne
        | cons c t =>
          refine ⟨c, t ++ ['\r', '\n'], ?_, csvField_head_ne hcf⟩
          rw [show csvRow [f] = (if f.isEmpty then ['"', '"'] else csvField f) ++
            ['\r', '\n'] from rfl, if_neg hf, hcf]
          rfl
    | cons f2 fs2 =>
      cases hcf : csvField f with
      | nil =>
        refine ⟨',', csvCells (f2 :: fs2) ++ ['\r', '\n'], ?_, by decide⟩
        rw [show csvRow (f :: f2 :: fs2) =
          (csvField f ++ ',' :: csvCells (f2 :: fs2)) ++ ['\r', '\n'] from rfl, hcf]
        rfl
      | cons c t =>
        refine ⟨c, (t ++ ',' :: csvCells (f2 :: fs2)) ++ ['\r', '\n'],
          ?_, csvField_head_ne hcf⟩
        rw [show csvRow (f :: f2 :: fs2) =
          (csvField f ++ ',' :: csvCells (f2 :: fs2)) ++ ['\r', '\n'] from rfl, hcf]
        rfl

theorem csvRecords_cons_ne {f : Nat} {c : Char} {cs : List Char} (h : c ≠ '\r') :
    csvRecords (f + 1) (c :: cs) =
      (csvRecord ((c :: cs).length + 1) (c :: cs)).1 ::
        csvRecords f (csvRecord ((c :: cs).length + 1) (c :: cs)).2 := by
  simp only [csvRecords]
  split
  · rename_i heq
    simp at heq
  · rename_i cs2 heq
    injection heq with h1 _
    exact absurd h1 h
  · rfl

theorem csvCells_length : ∀ fs : List (List Char), fs.length ≤ (csvCells fs).length + 1 := by
  intro fs
  induction fs with
  | nil => simp
  | cons f fs' ih =>
    cases fs' with
    | nil => simp
    | cons f2 fs2 =>
      rw [show csvCells (f :: f2 :: fs2) = csvField f ++ ',' :: csvCells (f2 :: fs2) from rfl]
      simp only [List.length_cons, List.length_append] at ih ⊢
      omega

theorem csvRow_length : ∀ fs : List (List Char), fs.length ≤ (csvRow fs).length := by
  intro fs
  cases fs with
  | nil => simp [csvRow, csvCells]
  | cons f fs' =>
    cases fs' with
    | nil =>
      by_cases hf : f.isEmpty <;> simp [csvRow, hf]
    | cons f2 fs2 =>
      rw [show csvRow (f :: f2 :: fs2) = csvCells (f :: f2 :: fs2) ++ ['\r', '\n'] from rfl]
      have hcells := csvCells_length (f :: f2 :: fs2)
      simp only [List.length_cons, List.length_append] at hcells ⊢
      omega

theorem csvRecords_rt : ∀ {rows : List (List (List Char))} {fuel : Nat},
    rows.length ≤ fuel → csvRecords fuel (csvDoc rows) = rows := by
  intro rows
  induction rows with
  | nil =>
    intro fuel _
    cases fuel <;> rfl
  | cons r rows' ih =>
    intro fuel hfuel
    cases fuel with
    | zero => simp at hfuel
    | succ g =>
      have hdoc : csvDoc (r :: rows') = csvRow r ++ csvDoc rows' := by
        simp [csvDoc]
      rw [hdoc]
      cases hr : r with
      | nil =>
        rw [show csvRow [] = ['\r', '\n'] from rfl]
        show csvRecords (g + 1) ('\r' :: '\n' :: csvDoc rows') = [] :: rows'
        rw [show csvRecords (g + 1) ('\r' :: '\n' :: csvDoc rows') =
          [] :: csvRecords g (csvDoc rows') from rfl]
        rw [ih (Nat.le_of_succ_le_succ hfuel)]
      | cons f fs' =>
        rw [← hr]
        have hne : r ≠ [] := by rw [hr]; simp
        obtain ⟨c, cs, hrow, hcr⟩ := csvRow_shape hne
        have hsplit : csvRow r ++ csvDoc rows' = c :: (cs ++ csvDoc rows') := by
          rw [hrow]; rfl
        rw [hsplit, csvRecords_cons_ne hcr, ← hsplit]
        have hlen : r.length ≤ (csvRow r ++ csvDoc rows').length + 1 := by
          have h1 := csvRow_length r
          simp only [List.length_append]
          omega
        rw [csvRecord_row_rt hne hlen, ih (Nat.le_of_succ_le_succ hfuel)]

/-! ## Decimal rendering and reparse lemmas -/

theorem digitChar_toNat {d : ℕ} (h : d < 10) : (digitChar d).toNat = 48 + d := by
  interval_cases d <;> rfl

theorem digitChar_isDigit {d : ℕ} (h : d < 10) : isDigitB (digitChar d) = true := by
  interval_cases d <;> decide

theorem digitsVal_append_singleton (a : List Char) (c : Char) :
    digitsVal (a ++ [c]) = digitsVal a * 10 + (c.toNat - 48) := by
  unfold digitsVal
  rw [List.foldl_append]
  rfl

theorem natDigsF_spec : ∀ {fuel n : ℕ}, n < fuel →
    digitsVal (natDigsF fuel n) = n ∧ allDigits (natDigsF fuel n) = true ∧
      natDigsF fuel n ≠ [] := by
  intro fuel
  induction fuel with
  | zero => intro n h; exact absurd h (Nat.not_lt_zero n)
  | succ g ih =>
    intro n h
    by_cases h10 : n < 10
    · refine ⟨?_, ?_, by simp [natDigsF, h10]⟩
      · rw [show natDigsF (g + 1) n = [digitChar n] from by simp [natDigsF, h10],
          show ([digitChar n] : List Char) = [] ++ [digitChar n] from rfl,
          digitsVal_append_singleton, digitChar_toNat h10]
        simp [digitsVal]
      · simp [natDigsF, h10, allDigits, digitChar_isDigit h10]
    · have hrec : n / 10 < g := by
        have h1 : n / 10 < n := Nat.div_lt_self (by omega) (by omega)
        omega
      obtain ⟨hval, hdig, -⟩ := ih hrec
      rw [show natDigsF (g + 1) n = natDigsF g (n / 10) ++ [digitChar (n % 10)] from by
        simp [natDigsF, h10]]
      refine ⟨?_, ?_, by simp⟩
      · rw [digitsVal_append_singleton, hval, digitChar_toNat (Nat.mod_lt n (by omega))]
        omega
      · unfold allDigits at hdig ⊢
        rw [List.all_append]
        simp [hdig, digitChar_isDigit (Nat.mod_lt n (by omega))]

theorem natDigsF_length : ∀ {fuel n k : ℕ}, n < fuel → 1 ≤ k → n < 10 ^ k →
    (natDigsF fuel n).length ≤ k := by
  intro fuel
  induction fuel with
  | zero => intro n k h _ _; exact absurd h (Nat.not_lt_zero n)
  | succ g ih =>
    intro n k h hk hnk
    by_cases h10 : n < 10
    · rw [show natDigsF (g + 1) n = [digitChar n] from by simp [natDigsF, h10]]
      simpa using hk
    · have hk2 : 2 ≤ k := by
        rcases Nat.lt_or_ge k 2 with hlt | hge
        · exfalso
          have hke : k = 1 := by omega
          subst hke
          simp only [pow_one] at hnk
          omega
        · exact hge
      have hrec : n / 10 < g := by
        have := Nat.div_lt_self (show 0 < n by omega) (show 1 < 10 by omega)
        omega
      have hdiv : n / 10 < 10 ^ (k - 1) := by
        rw [Nat.div_lt_iff_lt_mul (by omega)]
        have hpow : 10 ^ (k - 1) * 10 = 10 ^ k := by
          rw [← pow_succ]
          congr 1
          omega
        omega
      have hlen := ih hrec (by omega) hdiv
      rw [show natDigsF (g + 1) n = natDigsF g (n / 10) ++ [digitChar (n % 10)] from by
        simp [natDigsF, h10]]
      simp only [List.length_append, List.length_singleton]
      omega

theorem natDigs_spec (n : ℕ) :
    digitsVal (natDigs n) = n ∧ allDigits (natDigs n) = true ∧ natDigs n ≠ [] :=
  natDigsF_spec (Nat.lt_succ_self n)

theorem natDigs_length {n k : ℕ} (hk : 1 ≤ k) (h : n < 10 ^ k) :
    (natDigs n).length ≤ k :=
  natDigsF_length (Nat.lt_succ_self n) hk h

theorem digitsVal_cons_zero (t : List Char) : digitsVal ('0' :: t) = digitsVal t := by
  unfold digitsVal
  rw [List.foldl_cons]
  norm_num [show '0'.toNat = 48 from rfl]

theorem digitsVal_leftPad (k : ℕ) (s : List Char) :
    digitsVal (leftPad k s) = digitsVal s := by
  unfold leftPad
  generalize k - s.length = j
  induction j with
  | zero => rfl
  | succ i ih =>
    rw [List.replicate_succ, List.cons_append, digitsVal_cons_zero]
    exact ih

theorem leftPad_length {k : ℕ} {s : List Char} (h : s.length ≤ k) :
    (leftPad k s).length = k := by
  unfold leftPad
  simp only [List.length_append, List.length_replicate]
  omega

theorem allDigits_leftPad {k : ℕ} {s : List Char} (h : allDigits s = true) :
    allDigits (leftPad k s) = true := by
  unfold leftPad allDigits at *
  rw [List.all_append]
  simp only [h, Bool.and_true]
  rw [List.all_eq_true]
  intro c hc
  rw [List.eq_of_mem_replicate hc]
  decide

theorem splitDot_append {A B : List Char} (h : ∀ c ∈ A, (c == '.') = false) :
    splitDot (A ++ '.' :: B) = (A, some B) := by
  induction A with
  | nil => simp [splitDot]
  | cons a A' ih =>
    have ha := h a (by simp)
    simp [splitDot, ha, ih fun c hc => h c (by simp [hc])]

theorem parseMant_decimal {ip fp : List Char} (hip : allDigits ip = true)
    (hfp : allDigits fp = true) (hne : ip ≠ []) :
    parseMant (ip ++ '.' :: fp) =
      some ((digitsVal ip : ℚ) + (digitsVal fp : ℚ) / 10 ^ fp.length) := by
  have hdot : ∀ c ∈ ip, (c == '.') = false := by
    intro c hc
    rw [beq_eq_false_iff_ne]
    rintro rfl
    have := List.all_eq_true.1 hip _ hc
    exact absurd this (by decide)
  unfold parseMant
  simp only [splitDot_append hdot]
  rw [if_pos (show (ip ≠ [] ∨ fp ≠ []) ∧ allDigits ip ∧ allDigits fp from
    ⟨Or.inl hne, hip, hfp⟩)]

theorem digit_not_special {c : Char} (hd : isDigitB c = true) :
    isCurrencyB c = false ∧ isSpaceB c = false ∧ (c == '-') = false ∧
      (c == '+') = false ∧ (c == 'e') = false ∧ (c == 'E') = false := by
  have hno : ∀ d : Char, isDigitB d = false → c ≠ d := by
    intro d hdd hcd
    rw [hcd, hdd] at hd
    exact absurd hd (by simp)
  refine ⟨?_, ?_, ?_, ?_, ?_, ?_⟩
  · unfold isCurrencyB
    simp only [Bool.or_eq_false_iff, beq_eq_false_iff_ne]
    exact ⟨⟨⟨⟨⟨hno '$' (by decide), hno ',' (by decide)⟩, hno '€' (by decide)⟩,
      hno '£' (by decide)⟩, hno '(' (by decide)⟩, hno ')' (by decide)⟩
  · unfold isSpaceB
    simp only [Bool.or_eq_false_iff, beq_eq_false_iff_ne]
    exact ⟨⟨⟨⟨⟨hno ' ' (by decide), hno '\t' (by decide)⟩, hno '\n' (by decide)⟩,
      hno '\r' (by decide)⟩, hno '\x0b' (by decide)⟩, hno '\x0c' (by decide)⟩
  · rw [beq_eq_false_iff_ne]; exact hno '-' (by decide)
  · rw [beq_eq_false_iff_ne]; exact hno '+' (by decide)
  · rw [beq_eq_false_iff_ne]; exact hno 'e' (by decide)
  · rw [beq_eq_false_iff_ne]; exact hno 'E' (by decide)

theorem dotDigitChars {ip fp : List Char} (hip : allDigits ip = true)
    (hfp : allDigits fp = true) :
    ∀ c ∈ ip ++ '.' :: fp, isDigitB c = true ∨ c = '.' := by
  intro c hc
  rcases List.mem_append.1 hc with hc | hc
  · exact Or.inl (List.all_eq_true.1 hip c hc)
  · rcases List.mem_cons.1 hc with rfl | hc
    · exact Or.inr rfl
    · exact Or.inl (List.all_eq_true.1 hfp c hc)

theorem dropWhile_all_neg {p : Char → Bool} {l : List Char} (h : ∀ c ∈ l, p c = false) :
    l.dropWhile p = l := by
  cases l with
  | nil => rfl
  | cons c t => simp [List.dropWhile_cons, h c (by simp)]

theorem pyStrip_eq_self {s : List Char} (h : ∀ c ∈ s, isSpaceB c = false) :
    pyStrip s = s := by
  unfold pyStrip
  rw [dropWhile_all_neg h, dropWhile_all_neg (fun c hc => h c (List.mem_reverse.1 hc)),
    List.reverse_reverse]

theorem pyFloat_decimal {ip fp : List Char} (hip : allDigits ip = true)
    (hfp : allDigits fp = true) (hne : ip ≠ []) :
    pyFloat (ip ++ '.' :: fp) =
      some ((digitsVal ip : ℚ) + (digitsVal fp : ℚ) / 10 ^ fp.length) ∧
    pyFloat ('-' :: (ip ++ '.' :: fp)) =
      some (-((digitsVal ip : ℚ) + (digitsVal fp : ℚ) / 10 ^ fp.length)) := by
  have hchars := dotDigitChars hip hfp
  have hnosign : ∀ c ∈ ip ++ '.' :: fp, (c == '-') = false ∧ (c == '+') = false := by
    intro c hc
    rcases hchars c hc with hd | rfl
    · exact ⟨(digit_not_special hd).2.2.1, (digit_not_special hd).2.2.2.1⟩
    · exact ⟨by decide, by decide⟩
  have hnoe : ∀ c ∈ ip ++ '.' :: fp, (c == 'e' || c == 'E') = false := by
    intro c hc
    rw [Bool.or_eq_false_iff]
    rcases hchars c hc with hd | rfl
    · exact ⟨(digit_not_special hd).2.2.2.2.1, (digit_not_special hd).2.2.2.2.2⟩
    · exact ⟨by decide, by decide⟩
  have hmant := parseMant_decimal hip hfp hne
  constructor
  · unfold pyFloat
    rw [stripSign_no_sign hnosign]
    dsimp only
    rw [splitExpAt_no_e hnoe]
    dsimp only
    rw [hmant]
    simp
  · unfold pyFloat
    rw [show stripSign ('-' :: (ip ++ '.' :: fp)) = (-1, ip ++ '.' :: fp) from rfl]
    dsimp only
    rw [splitExpAt_no_e hnoe]
    dsimp only
    rw [hmant]
    simp only [Option.map_some', Option.some.injEq]
    push_cast
    ring

theorem parse_float_decimal {ip fp : List Char} (hip : allDigits ip = true)
    (hfp : allDigits fp = true) (hne : ip ≠ []) :
    parse_float (ip ++ '.' :: fp) =
      some ((digitsVal ip : ℚ) + (digitsVal fp : ℚ) / 10 ^ fp.length) ∧
    parse_float ('-' :: (ip ++ '.' :: fp)) =
      some (-((digitsVal ip : ℚ) + (digitsVal fp : ℚ) / 10 ^ fp.length)) := by
  have hchars := dotDigitChars hip hfp
  have hnc : ∀ c ∈ ip ++ '.' :: fp, (!(isCurrencyB c)) = true := by
    intro c hc
    rcases hchars c hc with hd | rfl
    · simp [(digit_not_special hd).1]
    · decide
  have hns : ∀ c ∈ ip ++ '.' :: fp, isSpaceB c = false := by
    intro c hc
    rcases hchars c hc with hd | rfl
    · exact (digit_not_special hd).2.1
    · decide
  have hfil : (ip ++ '.' :: fp).filter (fun c => !(isCurrencyB c)) = ip ++ '.' :: fp :=
    List.filter_eq_self.2 hnc
  have hstrip : pyStrip (ip ++ '.' :: fp) = ip ++ '.' :: fp := pyStrip_eq_self hns
  constructor
  · unfold parse_float
    rw [if_neg (by simp [hne]), hfil, hstrip]
    exact (pyFloat_decimal hip hfp hne).1
  · unfold parse_float
    rw [if_neg (by simp)]
    rw [List.filter_cons, if_pos (by decide), hfil]
    rw [pyStrip_eq_self (by
      intro c hc
      rcases List.mem_cons.1 hc with rfl | hc
      · decide
      · exact hns c hc)]
    exact (pyFloat_decimal hip hfp hne).2

theorem decScale_spec {a : ℚ} (ha : IsFiniteDecimal a) :
    ∃ k, decScale a = some k ∧ (a * (10 : ℚ) ^ k).den = 1 := by
  have hsome : ((List.range (a.den + 1)).find? fun k => (a * (10 : ℚ) ^ k).den == 1).isSome := by
    rw [List.find?_isSome]
    exact ⟨a.den, List.mem_range.2 (Nat.lt_succ_self _), by rw [beq_iff_eq]; exact ha⟩
  obtain ⟨k, hk⟩ := Option.isSome_iff_exists.1 hsome
  exact ⟨k, hk, by simpa using List.find?_some hk⟩

theorem pyFloatReprAbs_parse {a : ℚ} (h0 : 0 ≤ a) (ha : IsFiniteDecimal a) :
    ∃ ip fp, pyFloatReprAbs a = ip ++ '.' :: fp ∧ allDigits ip = true ∧
      allDigits fp = true ∧ ip ≠ [] ∧
      (digitsVal ip : ℚ) + (digitsVal fp : ℚ) / 10 ^ fp.length = a := by
  obtain ⟨k, hk, hk1⟩ := decScale_spec ha
  have hm : ((a * (10 : ℚ) ^ k).num : ℚ) = a * (10 : ℚ) ^ k :=
    Rat.coe_int_num_of_den_eq_one hk1
  have hmn : 0 ≤ (a * (10 : ℚ) ^ k).num := by
    rw [Rat.num_nonneg]
    positivity
  have hcast : (((a * (10 : ℚ) ^ k).num.toNat : ℕ) : ℚ) = a * (10 : ℚ) ^ k := by
    rw [← hm]
    exact_mod_cast congrArg (fun z : ℤ => (z : ℚ)) (Int.toNat_of_nonneg hmn)
  by_cases hk0 : k = 0
  · subst hk0
    refine ⟨natDigs (a * (10 : ℚ) ^ (0 : ℕ)).num.toNat, ['0'], ?_,
      (natDigs_spec _).2.1, by decide, (natDigs_spec _).2.2, ?_⟩
    · unfold pyFloatReprAbs
      rw [hk, show (some (0 : ℕ)).getD 0 = 0 from rfl, if_pos rfl]
    · rw [(natDigs_spec _).1, show digitsVal ['0'] = 0 from by decide]
      rw [hcast]
      push_cast
      norm_num
  · have hk1' : 1 ≤ k := Nat.one_le_iff_ne_zero.2 hk0
    have hpow0 : (0 : ℕ) < 10 ^ k := by positivity
    have hmlt : (a * (10 : ℚ) ^ k).num.toNat % 10 ^ k < 10 ^ k := Nat.mod_lt _ hpow0
    refine ⟨natDigs ((a * (10 : ℚ) ^ k).num.toNat / 10 ^ k),
      leftPad k (natDigs ((a * (10 : ℚ) ^ k).num.toNat % 10 ^ k)), ?_,
      (natDigs_spec _).2.1, allDigits_leftPad (natDigs_spec _).2.1,
      (natDigs_spec _).2.2, ?_⟩
    · unfold pyFloatReprAbs
      rw [hk, show (some k).getD 0 = k from rfl, if_neg hk0]
    · have hlen : (leftPad k (natDigs ((a * (10 : ℚ) ^ k).num.toNat % 10 ^ k))).length = k :=
        leftPad_length (natDigs_length hk1' hmlt)
      rw [(natDigs_spec _).1, digitsVal_leftPad, (natDigs_spec _).1, hlen]
      have hdm : (a * (10 : ℚ) ^ k).num.toNat / 10 ^ k * 10 ^ k +
          (a * (10 : ℚ) ^ k).num.toNat % 10 ^ k = (a * (10 : ℚ) ^ k).num.toNat := by
        rw [Nat.mul_comm]
        exact Nat.div_add_mod _ _
      have h10 : ((10 : ℚ) ^ k) ≠ 0 := by positivity
      have hq := congrArg (fun n : ℕ => (n : ℚ)) hdm
      push_cast at hq
      field_simp
      linear_combination hq + hcast

theorem parse_float_pyFloatRepr {q : ℚ} (hq : IsFiniteDecimal q) :
    parse_float (pyFloatRepr q) = some q := by
  by_cases hneg : q < 0
  · have ha : IsFiniteDecimal (-q) := by
      unfold IsFiniteDecimal at hq ⊢
      rw [Rat.neg_den, neg_mul, Rat.neg_den]
      exact hq
    obtain ⟨ip, fp, hshape, hip, hfp, hne, hval⟩ :=
      pyFloatReprAbs_parse (by linarith) ha
    unfold pyFloatRepr
    simp only [if_pos hneg]
    rw [hshape, show (['-'] : List Char) ++ (ip ++ '.' :: fp) =
      '-' :: (ip ++ '.' :: fp) from rfl]
    rw [(parse_float_decimal hip hfp hne).2, hval]
    norm_num
  · have h0 : 0 ≤ q := le_of_not_lt hneg
    obtain ⟨ip, fp, hshape, hip, hfp, hne, hval⟩ := pyFloatReprAbs_parse h0 hq
    unfold pyFloatRepr
    simp only [if_neg hneg, List.nil_append]
    rw [hshape, (parse_float_decimal hip hfp hne).1, hval]

/-! ## Claim C9 -/

theorem csvRow_two_le (fs : List (List Char)) : 2 ≤ (csvRow fs).length := by
  cases fs with
  | nil => simp [csvRow, csvCells]
  | cons f fs' =>
    cases fs' with
    | nil => by_cases hf : f.isEmpty <;> simp [csvRow, hf]
    | cons f2 fs2 =>
      rw [show csvRow (f :: f2 :: fs2) = csvCells (f :: f2 :: fs2) ++ ['\r', '\n'] from rfl]
      simp

theorem csvDoc_length (rows : List (List (List Char))) :
    rows.length ≤ (csvDoc rows).length := by
  induction rows with
  | nil => simp [csvDoc]
  | cons r rows' ih =>
    rw [show csvDoc (r :: rows') = csvRow r ++ csvDoc rows' from by simp [csvDoc]]
    have := csvRow_two_le r
    simp only [List.length_cons, List.length_append]
    omega

/-- C9: exporting through the Report Builder and re-reading reproduces the
rows exactly: the parse of the emitted csv equals the emitted row structure
(fixed label order `Invoice ID`, `Vendor Name`, `Invoice Number`, `Date`,
`GST Number`, `Tax Amount`, `Total Amount`; string fields verbatim; absent
optional values as empty cells), and each rendered monetary cell re-parses
numerically to the original amount. -/
theorem C9_theorem (inv : ParsedInvoice) :
    csvParse (generate_csv_string inv).data = invoiceRows inv ∧
    (∀ q, inv.tax_amount = some q → IsFiniteDecimal q →
      parse_float (moneyCell inv.tax_amount) = some q) ∧
    (∀ q, inv.total_amount = some q → IsFiniteDecimal q →
      parse_float (moneyCell inv.total_amount) = some q) := by
  refine ⟨?_, fun q hq hd => ?_, fun q hq hd => ?_⟩
  · show csvRecords ((csvDoc (invoiceRows inv)).length + 1) (csvDoc (invoiceRows inv)) =
      invoiceRows inv
    exact csvRecords_rt (by have := csvDoc_length (invoiceRows inv); omega)
  · rw [hq]
    exact parse_float_pyFloatRepr hd
  · rw [hq]
    exact parse_float_pyFloatRepr hd

/-- C9 witness: a concrete invoice with both amounts present round-trips. -/
theorem C9_witness :
    csvParse (generate_csv_string
      ⟨"abc", some "Vendor Inc", none, some "01/01/2024", some 880, some (161 / 2), none,
        [⟨2, "ITEM NAME 1", some 150, some 300⟩], "raw"⟩).data =
      invoiceRows
        ⟨"abc", some "Vendor Inc", none, some "01/01/2024", some 880, some (161 / 2), none,
          [⟨2, "ITEM NAME 1", some 150, some 300⟩], "raw"⟩ ∧
    parse_float (moneyCell (ParsedInvoice.tax_amount
      ⟨"abc", some "Vendor Inc", none, some "01/01/2024", some 880, some (161 / 2), none,
        [⟨2, "ITEM NAME 1", some 150, some 300⟩], "raw"⟩)) = some (161 / 2) ∧
    parse_float (moneyCell (ParsedInvoice.total_amount
      ⟨"abc", some "Vendor Inc", none, some "01/01/2024", some 880, some (161 / 2), none,
        [⟨2, "ITEM NAME 1", some 150, some 300⟩], "raw"⟩)) = some 880 :=
  ⟨(C9_theorem _).1,
   (C9_theorem _).2.1 (161 / 2) rfl (by unfold IsFiniteDecimal; decide),
   (C9_theorem _).2.2 880 rfl (by unfold IsFiniteDecimal; decide)⟩

/-! ## Claim C7 -/

theorem mtch_alts_lits_eq_nil {ws : List (List Char)} {f : Nat} {t : List Char}
    (hf : ws.length ≤ f) (hw : ws ≠ []) :
    (Regex.mtch f (ralts (ws.map .lit)) t = [] ↔ ∀ w ∈ ws, ciStarts w t = false) := by
  induction ws generalizing f with
  | nil => exact absurd rfl hw
  | cons w rest ih =>
    cases f with
    | zero => simp at hf
    | succ g =>
      cases rest with
      | nil =>
        by_cases h : ciStarts w t <;> simp [ralts, Regex.mtch, h]
      | cons w2 rest2 =>
        have hg : (w2 :: rest2).length ≤ g := by
          simpa using Nat.le_of_succ_le_succ hf
        cases g with
        | zero => simp at hg
        | succ g2 =>
          have hunfold : Regex.mtch (g2 + 1 + 1) (ralts ((w :: w2 :: rest2).map .lit)) t =
              Regex.mtch (g2 + 1) (.lit w) t ++
                Regex.mtch (g2 + 1) (ralts ((w2 :: rest2).map .lit)) t := rfl
          have hlit : Regex.mtch (g2 + 1) (Regex.lit w) t = [] ↔ ciStarts w t = false := by
            by_cases h : ciStarts w t <;> simp [Regex.mtch, h]
          have hih := ih (f := g2 + 1) hg (by simp)
          rw [hunfold, List.append_eq_nil]
          constructor
          · rintro ⟨h1, h2⟩ v hv
            rcases List.mem_cons.1 hv with rfl | hv
            · exact hlit.1 h1
            · exact hih.1 h2 v hv
          · intro hall
            exact ⟨hlit.2 (hall w (by simp)), hih.2 fun v hv => hall v (by simp [hv])⟩

theorem mtch_summary_eq_nil {f : Nat} (hf : 8 ≤ f) (t : List Char) :
    (Regex.mtch f summaryPattern t = [] ↔ ∀ w ∈ summaryKeywords, ciStarts w t = false) := by
  obtain ⟨g, rfl⟩ : ∃ g, f = g + 1 := ⟨f - 1, by omega⟩
  have hsp : summaryPattern = .group 1 (ralts (summaryKeywords.map .lit)) := rfl
  rw [hsp]
  have hg : summaryKeywords.length ≤ g := by
    have : (6 : Nat) ≤ g := by omega
    simpa [summaryKeywords]
  calc Regex.mtch (g + 1) (.group 1 (ralts (summaryKeywords.map .lit))) t = []
      ↔ Regex.mtch g (ralts (summaryKeywords.map .lit)) t = [] := by
        simp [Regex.mtch]
    _ ↔ ∀ w ∈ summaryKeywords, ciStarts w t = false :=
        mtch_alts_lits_eq_nil hg (by simp [summaryKeywords])

theorem runFuel_ge_eight (r : Regex) (s : List Char) (hr : 7 ≤ r.size) :
    8 ≤ runFuel r s := by
  unfold runFuel
  nlinarith [Nat.zero_le s.length]

theorem summaryPattern_size : Regex.size summaryPattern = 12 := rfl

theorem searchL_summary_eq_none_iff (line : List Char) :
    searchL summaryPattern line = none ↔ ∀ w ∈ summaryKeywords, hasCI w line = false := by
  induction line with
  | nil =>
    have h8 : 8 ≤ runFuel summaryPattern [] := runFuel_ge_eight _ _ (by rw [summaryPattern_size]; norm_num)
    unfold searchL
    cases hm : Regex.mtch (runFuel summaryPattern []) summaryPattern [] with
    | nil =>
      simp only [hasCI]
      simpa using (mtch_summary_eq_nil h8 []).1 hm
    | cons a l =>
      simp only [hasCI]
      constructor
      · intro h
        exact absurd h (by simp)
      · intro hall
        have : Regex.mtch (runFuel summaryPattern []) summaryPattern [] = [] :=
          (mtch_summary_eq_nil h8 []).2 hall
        rw [hm] at this
        exact absurd this (by simp)
  | cons c t ih =>
    have h8 : 8 ≤ runFuel summaryPattern (c :: t) :=
      runFuel_ge_eight _ _ (by rw [summaryPattern_size]; norm_num)
    unfold searchL
    cases hm : Regex.mtch (runFuel summaryPattern (c :: t)) summaryPattern (c :: t) with
    | nil =>
      have hstarts := (mtch_summary_eq_nil h8 (c :: t)).1 hm
      constructor
      · intro h w hw
        simp [hasCI, hstarts w hw, ih.1 h w hw]
      · intro hall
        exact ih.2 fun w hw => by
          have := hall w hw
          simp [hasCI] at this
          exact this.2
    | cons a l =>
      constructor
      · intro h
        exact absurd h (by simp)
      · intro hall
        have : Regex.mtch (runFuel summaryPattern (c :: t)) summaryPattern (c :: t) = [] :=
          (mtch_summary_eq_nil h8 (c :: t)).2 fun w hw => by
            have := hall w hw
            simp [hasCI] at this
            exact this.1
        rw [hm] at this
        exact absurd this (by simp)

/-- C7: every emitted line item comes from a line of the raw text on which
the summary search failed, i.e. a line that does not contain (up to case) any
of the keywords `SUBTOTAL`, `TAX`, `TOTAL`, `BALANCE`, `GST`, `PAYABLE`. -/
theorem C7_theorem (raw : String) (pat : Regex) (item : LineItem)
    (h : item ∈ parse_line_items raw pat) :
    ∃ line ∈ splitLines raw.data, lineItemFromLine pat line = some item ∧
      ∀ w ∈ summaryKeywords, hasCI w line = false := by
  obtain ⟨line, hmem, hline⟩ := mem_parse_line_items h
  exact ⟨line, hmem, hline,
    (searchL_summary_eq_none_iff line).1 (lineItemFromLine_no_summary hline)⟩

/-- C7 witness: the item emitted from `ITEM NAME 1 Rs. 150.00 Rs. 300.00`
comes from a keyword-free line. -/
theorem C7_witness :
    ∃ line ∈ splitLines ("ITEM NAME 1 Rs. 150.00 Rs. 300.00" : String).data,
      lineItemFromLine lineItemPattern line =
        some ⟨2, "ITEM NAME 1", some 150, some 300⟩ ∧
      ∀ w ∈ summaryKeywords, hasCI w line = false :=
  C7_theorem "ITEM NAME 1 Rs. 150.00 Rs. 300.00" lineItemPattern
    ⟨2, "ITEM NAME 1", some 150, some 300⟩ (by decide)

/-! ## Claim C8 -/

/-- C8: parsing is deterministic up to the identifier — two runs on the same
raw text agree on every field except the externally supplied identifier. -/
theorem C8_theorem (id1 id2 raw : String) :
    (parse_invoice_data id1 raw).vendor_name = (parse_invoice_data id2 raw).vendor_name ∧
    (parse_invoice_data id1 raw).invoice_number = (parse_invoice_data id2 raw).invoice_number ∧
    (parse_invoice_data id1 raw).date = (parse_invoice_data id2 raw).date ∧
    (parse_invoice_data id1 raw).total_amount = (parse_invoice_data id2 raw).total_amount ∧
    (parse_invoice_data id1 raw).tax_amount = (parse_invoice_data id2 raw).tax_amount ∧
    (parse_invoice_data id1 raw).gst_number = (parse_invoice_data id2 raw).gst_number ∧
    (parse_invoice_data id1 raw).line_items = (parse_invoice_data id2 raw).line_items ∧
    (parse_invoice_data id1 raw).raw_text = (parse_invoice_data id2 raw).raw_text :=
  ⟨rfl, rfl, rfl, rfl, rfl, rfl, rfl, rfl⟩

end InvoiceOCR
